import Mathlib

/-!
# Runway controller: a shallow embedding of `src/controller.js`

The controller of the Runway modelling engine is embedded as explicit state
passing.  A controller operation is a function from a controller record to a
new controller record together with the outcome of the call: either the value
the JavaScript method returns or the exception it throws.  The controller
record that accompanies a thrown exception is the state the object is left in
when the exception leaves the method.

The live values of the model variables (`module.env.vars`) are the field
`store`.  Callbacks supplied by the model (rule effects, invariant checks,
domain expressions, mutators) are functions of the store.
-/

namespace Runway

/-- An exception value.  `isRuntime` is the outcome of the test
`e instanceof errors.Runtime`; `text` is the rendering of the value inside a
template string. -/
structure Err where
  isRuntime : Bool
  text : String
deriving DecidableEq, Repr

/-- The names recorded in `context.readset`. -/
abbrev Readset := List String

/-- A concrete changeset: an array of variable names. -/
abbrev Changeset := List String

/-- The live values of the model variables, keyed by variable name. -/
abbrev Store (V : Type) := String → V

/-- The plain object wrapped by `SerializedState`: own keys in insertion
order, each with its JSON value. -/
abbrev SerializedState (J : Type) := List (String × J)

/-- The assignment `state[name] = value` on a plain object. -/
def objSet {J : Type} : SerializedState J → String → J → SerializedState J
  | [], k, v => [(k, v)]
  | (k', v') :: rest, k, v =>
    if k' = k then (k', v) :: rest else (k', v') :: objSet rest k v

/-- The own keys of a plain object. -/
def keys {J : Type} (s : SerializedState J) : List String := s.map Prod.fst

/-- The method `SerializedState.equals`: `_.isEqual` on the two wrapped objects, that is,
the same own keys with equal values. -/
def SerializedState.equals {J : Type} [DecidableEq J]
    (a b : SerializedState J) : Bool :=
  (keys a).all (fun k => decide (a.lookup k = b.lookup k)) &&
  (keys b).all (fun k => decide (a.lookup k = b.lookup k))

namespace Changesets

/-- Modelled from the spec: `changesets.js` is not among the sources.
`compareJSON` is the diff of section 4.1: the variable names whose serialized
value differs between the two states, compared per variable. -/
def compareJSON {J : Type} [DecidableEq J]
    (oldState newState : SerializedState J) : Changeset :=
  ((keys oldState ++ keys newState).dedup).filter
    (fun n => decide (oldState.lookup n ≠ newState.lookup n))

/-- Modelled from the spec: `changesets.js` is not among the sources.
`empty` holds iff no names differ. -/
def empty (changes : Changeset) : Bool := changes.isEmpty

/-- Modelled from the spec: `changesets.js` is not among the sources.
`affected` on a concrete changeset holds iff the changeset and the readset
share at least one variable name.  A `null` readset shares no name. -/
def affected (changes : Changeset) (readset : Option Readset) : Bool :=
  match readset with
  | none => false
  | some rs => changes.any (fun n => rs.contains n)

end Changesets

/-- What running a rule effect does: the store it leaves, the names it
recorded in its evaluation context, and the exception it threw, if any. -/
structure Effect (V : Type) where
  store : Store V
  readset : Readset
  error : Option Err

/-- A mutator passed to `tryChangeState` or `wouldChangeState`: it leaves a
store and either returns a message (`none` for `undefined`) or throws. -/
abbrev Mutator (V : Type) := Store V → Store V × Except Err (Option String)

/-- A model variable declaration: its name, its constant flag and the value
`mvar.type.makeDefaultValue()` yields. -/
structure ModelVar (V : Type) where
  name : String
  isConstant : Bool
  makeDefaultValue : V

/-- A declared invariant.  `check` either returns, having recorded a readset
in its context, or throws. -/
structure InvariantDecl (V : Type) where
  name : String
  check : Store V → Except Err Readset

/-- A declared rule: a simple rule with its effect, or a `RuleFor` with its
domain expression and indexed effect.  The domain expression either throws or
yields its readset and a collection, given as the `(v, i)` pairs its `forEach`
reports, in order. -/
inductive RuleSource (V : Type) where
  | simple (fire : Store V → Effect V)
  | ruleFor (expr : Store V → Except Err (Readset × List (V × Int)))
      (fire : Int → Store V → Effect V)

/-- An entry of `module.env.rules`. -/
structure RuleDecl (V : Type) where
  name : String
  source : RuleSource V

/-- The module the controller is built from: `env.vars`, `env.invariants`,
`env.rules`, the global initialization code `ast.execute`, and the
serialization methods of the variables. -/
structure Module (V J : Type) where
  vars : List (ModelVar V)
  invariants : List (InvariantDecl V)
  rules : List (RuleDecl V)
  execute : Store V → Store V
  toJSON : V → J
  assignJSON : V → Option J → V

/-- An entry of `execution`. -/
structure Snapshot (J : Type) where
  msg : String
  state : SerializedState J
  index : Nat
deriving DecidableEq

/-- An invariant record of the controller. -/
structure Invariant (V : Type) where
  name : String
  active : Bool
  readset : Option Readset
  check : Store V → Except Err Readset

/-- A rule instance built by `makeRule`. -/
structure Rule (V : Type) where
  name : String
  _fire : Store V → Effect V
  active : Bool
  readset : Option Readset

/-- A ruleset.  Its `update` closure is determined by `source`. -/
structure Ruleset (V : Type) where
  readset : Readset
  rules : List (Rule V)
  source : RuleDecl V

/-- The controller object.  `hookCalls`, `resets` and `viewUpdates` record the
calls made to the error hook, the reset hook and `updateViews`. -/
structure Controller (V J : Type) where
  module : Module V J
  store : Store V
  errorHandler : String → Err → Option Err
  execution : List (Snapshot J)
  invariants : List (Invariant V)
  rulesets : List (Ruleset V)
  hookCalls : List (String × Err)
  resets : Nat
  viewUpdates : Nat

/-- The exception raised by reading a property of `undefined`. -/
def typeError : Err := ⟨false, "TypeError"⟩

/-- The default error hook: `(msg, e) => { throw e; }`. -/
def defaultErrorHandler : String → Err → Option Err := fun _ e => some e

/-- The closure `makeRule(name, _fire)`: a fresh rule instance. -/
def makeRule {V : Type} (name : String) (_fire : Store V → Effect V) : Rule V :=
  { name := name, _fire := _fire, active := true, readset := none }

/-- The `update` closure of a ruleset: `_.noop` for a simple rule; for a
`RuleFor`, evaluate the domain expression and build one instance per element
the collection reports.  The index in the name is printed in plain decimal,
as a template string prints an integer of magnitude below `10 ^ 21`. -/
def Ruleset.update {V : Type} (ruleset : Ruleset V) (store : Store V) :
    Except Err (Ruleset V) :=
  match ruleset.source.source with
  | .simple _ => .ok ruleset
  | .ruleFor expr fire =>
    match expr store with
    | .error e => .error e
    | .ok (readset, coll) =>
      .ok { ruleset with
            readset := readset
            rules := coll.map (fun vi =>
              makeRule (ruleset.source.name ++ "(" ++ toString vi.2 ++ ")")
                (fire vi.2)) }

/-- The ruleset pushed by the constructor for one declared rule. -/
def makeRuleset {V : Type} (rule : RuleDecl V) (store : Store V) :
    Except Err (Ruleset V) :=
  match rule.source with
  | .ruleFor _ _ =>
    Ruleset.update { readset := [], rules := [], source := rule } store
  | .simple fire =>
    .ok { readset := [], rules := [makeRule rule.name fire], source := rule }

/-- The test `affected` of `reportChanges`: `changes === undefined` or
`Changesets.affected(changes, readset)`. -/
def affected (changes : Option Changeset) (readset : Option Readset) : Bool :=
  match changes with
  | none => true
  | some c => Changesets.affected c readset

/-- The body of the invariant loop of `reportChanges`. -/
def reportInvariant {V : Type} (changes : Option Changeset)
    (invariant : Invariant V) : Invariant V :=
  if !invariant.active && affected changes invariant.readset then
    { invariant with active := true, readset := none }
  else invariant

/-- The body of the inner rule loop of `reportChanges`. -/
def reportRule {V : Type} (changes : Option Changeset) (rule : Rule V) : Rule V :=
  if !rule.active && affected changes rule.readset then
    { rule with active := true, readset := none }
  else rule

/-- The ruleset loop of `reportChanges`.  When an `update` throws, the
rulesets before it have been processed and the rest are left as they were. -/
def reportRulesets {V : Type} (changes : Option Changeset) (store : Store V) :
    List (Ruleset V) → List (Ruleset V) × Option Err
  | [] => ([], none)
  | ruleset :: rest =>
    if affected changes (some ruleset.readset) then
      match ruleset.update store with
      | .error e => (ruleset :: rest, some e)
      | .ok ruleset' =>
        let r := reportRulesets changes store rest
        (ruleset' :: r.1, r.2)
    else
      let r := reportRulesets changes store rest
      ({ ruleset with rules := ruleset.rules.map (reportRule changes) } :: r.1, r.2)

/-- The invariant loop of `checkInvariants`, threading the record of hook
calls.  The result is the invariant records after the loop, the hook calls,
and the value returned or exception thrown. -/
def checkLoop {V : Type} (store : Store V)
    (errorHandler : String → Err → Option Err) :
    List (Invariant V) → List (String × Err) →
      List (Invariant V) × List (String × Err) × Except Err Bool
  | [], calls => ([], calls, .ok true)
  | invariant :: rest, calls =>
    if invariant.active then
      match invariant.check store with
      | .ok readset =>
        let r := checkLoop store errorHandler rest calls
        ({ invariant with readset := some readset } :: r.1, r.2)
      | .error e =>
        if e.isRuntime then
          let msg := "Failed invariant " ++ invariant.name ++ ": " ++ e.text
          match errorHandler msg e with
          | some thrown => (invariant :: rest, calls ++ [(msg, e)], .error thrown)
          | none => (invariant :: rest, calls ++ [(msg, e)], .ok false)
        else (invariant :: rest, calls, .error e)
    else
      let r := checkLoop store errorHandler rest calls
      (invariant :: r.1, r.2)

/-- The serialization of a store: the loop of `serializeState` over
`module.env.vars`. -/
def serializeStore {V J : Type} (m : Module V J) (store : Store V) :
    SerializedState J :=
  m.vars.foldl
    (fun state mvar =>
      if !mvar.isConstant then objSet state mvar.name (m.toJSON (store mvar.name))
      else state)
    []

/-- The variable loop of `restoreState`. -/
def restoreStore {V J : Type} (m : Module V J) (state : SerializedState J)
    (store : Store V) : Store V :=
  m.vars.foldl
    (fun st mvar =>
      if !mvar.isConstant then
        Function.update st mvar.name (m.assignJSON (st mvar.name) (state.lookup mvar.name))
      else st)
    store

/-- The variable loop of `resetToStartingState`: every variable, constant or
not, is assigned its type's default value. -/
def defaultStore {V J : Type} (m : Module V J) (store : Store V) : Store V :=
  m.vars.foldl (fun st mvar => Function.update st mvar.name mvar.makeDefaultValue) store

namespace Controller

variable {V J : Type}

/-- The method `reportChanges(changes)`; `none` is the call with no argument. -/
def reportChanges (c : Controller V J) (changes : Option Changeset) :
    Controller V J × Except Err Unit :=
  let invariants := c.invariants.map (reportInvariant changes)
  let r := reportRulesets changes c.store c.rulesets
  ({ c with invariants := invariants, rulesets := r.1 },
    match r.2 with
    | some e => .error e
    | none => .ok ())

/-- The method `getRulesets()`. -/
def getRulesets (c : Controller V J) : List (Ruleset V) := c.rulesets

/-- The method `checkInvariants()`. -/
def checkInvariants (c : Controller V J) : Controller V J × Except Err Bool :=
  let r := checkLoop c.store c.errorHandler c.invariants c.hookCalls
  ({ c with invariants := r.1, hookCalls := r.2.1 }, r.2.2)

/-- The method `serializeState()`. -/
def serializeState (c : Controller V J) : SerializedState J :=
  serializeStore c.module c.store

/-- The method `updateViews()`: every registered view is notified once. -/
def updateViews (c : Controller V J) : Controller V J :=
  { c with viewUpdates := c.viewUpdates + 1 }

/-- The method `restoreState(state)`. -/
def restoreState (c : Controller V J) (state : SerializedState J) :
    Controller V J × Except Err Unit :=
  reportChanges { c with store := restoreStore c.module state c.store } none

/-- The method `tryChangeState(mutator)`. -/
def tryChangeState [DecidableEq J] (c : Controller V J) (mutator : Mutator V) :
    Controller V J × Except Err Changeset :=
  match c.execution.getLast? with
  | none => (c, .error typeError)
  | some last =>
    let oldState := last.state
    let r := mutator c.store
    let c1 : Controller V J := { c with store := r.1 }
    match r.2 with
    | .error e => (c1, .error e)
    | .ok ret =>
      let msg := ret.getD "state changed"
      let newState := c1.serializeState
      let changes := Changesets.compareJSON oldState newState
      if Changesets.empty changes then (c1, .ok changes)
      else
        let msg := msg ++ " (changed " ++ ", ".intercalate changes ++ ")"
        let c2 : Controller V J := { c1 with
          execution := c1.execution ++
            [{ msg := msg, state := newState, index := c1.execution.length }] }
        let c3 := c2.reportChanges (some changes)
        match c3.2 with
        | .error e => (c3.1, .error e)
        | .ok _ =>
          let c4 := c3.1.checkInvariants
          match c4.2 with
          | .error e => (c4.1, .error e)
          | .ok _ => (c4.1.updateViews, .ok changes)

/-- The method `wouldChangeState(mutator)`; the result `none` is `false`. -/
def wouldChangeState [DecidableEq J] (c : Controller V J) (mutator : Mutator V) :
    Controller V J × Except Err (Option Changeset) :=
  match c.execution.getLast? with
  | none => (c, .error typeError)
  | some last =>
    let oldState := last.state
    let r := mutator c.store
    let c1 : Controller V J := { c with store := r.1 }
    match r.2 with
    | .error e => (c1, .error e)
    | .ok _ =>
      let newState := c1.serializeState
      let changes := Changesets.compareJSON oldState newState
      if Changesets.empty changes then (c1, .ok none)
      else
        let c2 := c1.restoreState oldState
        match c2.2 with
        | .error e => (c2.1, .error e)
        | .ok _ => (c2.1, .ok (some changes))

/-- The method `resetToStartingState()`. -/
def resetToStartingState (c : Controller V J) : Controller V J :=
  let store := c.module.execute (defaultStore c.module c.store)
  let c1 : Controller V J := { c with
    store := store
    execution := [{ msg := "Reset", state := serializeStore c.module store, index := 0 }]
    resets := c.resets + 1 }
  c1.updateViews

/-- The method `restore(snapshot)`. -/
def restore (c : Controller V J) (snapshot : Snapshot J) :
    Controller V J × Except Err Unit :=
  let c1 : Controller V J := { c with execution := c.execution.take (snapshot.index + 1) }
  match c1.execution.getLast? with
  | none => (c1, .error typeError)
  | some last =>
    let c2 := c1.restoreState last.state
    match c2.2 with
    | .error e => (c2.1, .error e)
    | .ok _ =>
      let c3 := c2.1.reportChanges none
      match c3.2 with
      | .error e => (c3.1, .error e)
      | .ok _ =>
        let c4 := c3.1.updateViews.checkInvariants
        match c4.2 with
        | .error e => (c4.1, .error e)
        | .ok _ => (c4.1, .ok ())

end Controller

/-- The loop of the constructor over `module.env.rules`. -/
def makeRulesets {V : Type} (store : Store V) :
    List (RuleDecl V) → Except Err (List (Ruleset V))
  | [] => .ok []
  | rule :: rest =>
    match makeRuleset rule store with
    | .error e => .error e
    | .ok ruleset =>
      match makeRulesets store rest with
      | .error e => .error e
      | .ok rulesets => .ok (ruleset :: rulesets)

/-- The invariant record the constructor pushes for a declared invariant. -/
def makeInvariant {V : Type} (invariant : InvariantDecl V) : Invariant V :=
  { name := invariant.name, active := true, readset := none, check := invariant.check }

/-- The constructor `new Controller(module)`, the variables of the module
holding `store`.  An exception leaving the constructor yields no controller. -/
def Controller.new {V J : Type} (m : Module V J) (store : Store V) :
    Except Err (Controller V J) :=
  let c0 : Controller V J :=
    { module := m
      store := store
      errorHandler := defaultErrorHandler
      execution := [{ msg := "Initial state", state := serializeStore m store, index := 0 }]
      invariants := m.invariants.map makeInvariant
      rulesets := []
      hookCalls := []
      resets := 0
      viewUpdates := 0 }
  let c1 := c0.checkInvariants
  match c1.2 with
  | .error e => .error e
  | .ok _ =>
    match makeRulesets store m.rules with
    | .error e => .error e
    | .ok rulesets => .ok { c1.1 with rulesets := rulesets }

/-- The mutator `rule.fire` hands to `tryChangeState`: run the effect and
return the rule's name. -/
def Rule.mutator {V : Type} (rule : Rule V) : Mutator V := fun store =>
  ((rule._fire store).store,
    match (rule._fire store).error with
    | some e => .error e
    | none => .ok (some rule.name))

/-- The closure `rule.fire()` for the rule instance at position `i` of ruleset `k` of
`getRulesets()`.  A position that holds no rule instance is a `TypeError`. -/
def Rule.fire {V J : Type} [DecidableEq J] (c : Controller V J) (k i : Nat) :
    Controller V J × Except Err Changeset :=
  match c.rulesets[k]? with
  | none => (c, .error typeError)
  | some ruleset =>
    match ruleset.rules[i]? with
    | none => (c, .error typeError)
    | some rule =>
      let r := c.tryChangeState rule.mutator
      match r.2 with
      | .error e => (r.1, .error e)
      | .ok changes =>
        if Changesets.empty changes then
          let rule' : Rule V :=
            { rule with active := false, readset := some (rule._fire c.store).readset }
          ({ r.1 with
              rulesets := r.1.rulesets.set k
                { ruleset with rules := ruleset.rules.set i rule' } },
            .ok changes)
        else (r.1, .ok changes)

/-- A call of a public operation of the controller, or an assignment to its
injectable error hook. -/
inductive Op (V J : Type) where
  | tryChangeState (mutator : Mutator V)
  | fire (k i : Nat)
  | wouldChangeState (mutator : Mutator V)
  | restoreState (state : SerializedState J)
  | restore (snapshot : Snapshot J)
  | resetToStartingState
  | checkInvariants
  | reportChanges (changes : Option Changeset)
  | setErrorHandler (handler : String → Err → Option Err)

/-- The controller after a call, whether the call returned or threw. -/
def step {V J : Type} [DecidableEq J] (c : Controller V J) : Op V J → Controller V J
  | .tryChangeState mutator => (c.tryChangeState mutator).1
  | .fire k i => (Rule.fire c k i).1
  | .wouldChangeState mutator => (c.wouldChangeState mutator).1
  | .restoreState state => (c.restoreState state).1
  | .restore snapshot => (c.restore snapshot).1
  | .resetToStartingState => c.resetToStartingState
  | .checkInvariants => c.checkInvariants.1
  | .reportChanges changes => (c.reportChanges changes).1
  | .setErrorHandler handler => { c with errorHandler := handler }

/-- The controller states reached from a constructed controller by calls that
satisfy `allowed` in the state they are made in. -/
inductive ReachableVia {V J : Type} [DecidableEq J]
    (allowed : Controller V J → Op V J → Prop) : Controller V J → Prop where
  | init (m : Module V J) (store : Store V) (c : Controller V J) :
      Controller.new m store = .ok c → ReachableVia allowed c
  | step (c : Controller V J) (op : Op V J) :
      ReachableVia allowed c → allowed c op → ReachableVia allowed (step c op)

/-- The controller states reached by any sequence of public operations. -/
def Reachable {V J : Type} [DecidableEq J] (c : Controller V J) : Prop :=
  ReachableVia (fun _ _ => True) c

/-! ## A counter model

One variable `x : Number` with default 0, a rule `inc` that sets `x := x + 1`,
a rule `idle` that reads `x` and changes nothing, a rule `once` that sets
`x := 1` when `x = 0`, and the invariant `x < 10`.
-/

namespace Counter

/-- The effect of `inc`. -/
def inc : Store Int → Effect Int := fun store =>
  { store := Function.update store "x" (store "x" + 1), readset := ["x"], error := none }

/-- The effect of `idle`. -/
def idle : Store Int → Effect Int := fun store =>
  { store := store, readset := ["x"], error := none }

/-- The effect of `once`. -/
def once : Store Int → Effect Int := fun store =>
  { store := if store "x" = 0 then Function.update store "x" 1 else store
    readset := ["x"], error := none }

/-- The check of the invariant `x < 10`. -/
def small : Store Int → Except Err Readset := fun store =>
  if store "x" < 10 then .ok ["x"] else .error ⟨true, "x < 10 failed"⟩

/-- The counter module. -/
def module : Module Int Int :=
  { vars := [{ name := "x", isConstant := false, makeDefaultValue := 0 }]
    invariants := [{ name := "small", check := small }]
    rules := [{ name := "inc", source := .simple inc },
              { name := "idle", source := .simple idle },
              { name := "once", source := .simple once }]
    execute := fun store => store
    toJSON := fun v => v
    assignJSON := fun v j => j.getD v }

/-- The store after module load. -/
def store0 : Store Int := fun _ => 0

/-- The controller built from the counter module. -/
def c0 : Controller Int Int :=
  match Controller.new module store0 with
  | .ok c => c
  | .error _ =>
    { module := module, store := store0, errorHandler := defaultErrorHandler,
      execution := [], invariants := [], rulesets := [], hookCalls := [],
      resets := 0, viewUpdates := 0 }

end Counter

/-- The shape of a well-formed history: it is not empty, every entry sits at
the position its `index` names, and every entry's state is the serialization
of some store of the module. -/
def HistoryOK {V J : Type} (c : Controller V J) : Prop :=
  c.execution ≠ [] ∧
  (∀ (i : Nat) (s : Snapshot J), c.execution[i]? = some s → s.index = i) ∧
  (∀ s ∈ c.execution, ∃ store, s.state = serializeStore c.module store)

namespace Counter

/-- The counter controller after `inc` has fired three times. -/
def c3 : Controller Int Int :=
  step (step (step c0 (.fire 0 0)) (.fire 0 0)) (.fire 0 0)

/-- The snapshot at index 1 of the history of `c3`. -/
def snapshot1 : Snapshot Int :=
  { msg := "inc (changed x)", state := [("x", 1)], index := 1 }

end Counter

namespace Counter

/-- The counter controller after `inc` has fired once and `restoreState` has
then been called with the state of the initial snapshot. -/
def c1r : Controller Int Int :=
  step (step c0 (.fire 0 0)) (.restoreState [("x", 0)])

/-- A mutator that sets `x := 1` and returns nothing. -/
def setOne : Mutator Int := fun store => (Function.update store "x" 1, .ok none)

end Counter

/-- In the given store the invariant, if active, passes its check. -/
def Invariant.passes {V : Type} (store : Store V) (invariant : Invariant V) : Prop :=
  invariant.active = true → ∃ readset, invariant.check store = .ok readset

/-- The invariant record after a pass of `checkInvariants` that reached it:
an active invariant whose check returned has the observed readset cached. -/
def Invariant.cached {V : Type} (store : Store V) (invariant : Invariant V) :
    Invariant V :=
  if invariant.active then
    match invariant.check store with
    | .ok readset => { invariant with readset := some readset }
    | .error _ => invariant
  else invariant

namespace Counter

/-- An error hook that returns normally. -/
def quiet : String → Err → Option Err := fun _ _ => none

/-- The counter controller with the quiet hook installed, after `inc` has
fired ten times: `x = 10`. -/
def c10 : Controller Int Int :=
  (List.replicate 10 (Op.fire 0 0)).foldl step (step c0 (.setErrorHandler quiet))

end Counter

namespace Counter

/-- The counter controller with the default hook after `inc` has fired nine
times: `x = 9`, one step before the invariant `x < 10` breaks. -/
def c9 : Controller Int Int :=
  (List.replicate 9 (Op.fire 0 0)).foldl step c0

end Counter

namespace Counter

/-- The counter controller after `once` has fired twice: the first firing
sets `x := 1`, the second changes nothing and leaves `once` inactive. -/
def cOnce : Controller Int Int :=
  step (step c0 (.fire 2 0)) (.fire 2 0)

/-- The initial snapshot of the counter controller. -/
def snapshot0 : Snapshot Int :=
  { msg := "Initial state", state := [("x", 0)], index := 0 }

end Counter

/-- The name, active flag and readset of every rule instance, by ruleset. -/
def ruleFlags {V J : Type} (c : Controller V J) :
    List (List (String × Bool × Option Readset)) :=
  c.rulesets.map (fun ruleset =>
    ruleset.rules.map (fun rule => (rule.name, rule.active, rule.readset)))

/-! ## A model with a parameterized rule

Variables `n` and `y`; a `RuleFor` rule `r` whose domain expression reads `n`
and yields the collection `0, ..., n - 1`, and whose effect reads `y` and
changes nothing.
-/

namespace Family

/-- The domain expression of `r`. -/
def domain : Store Int → Except Err (Readset × List (Int × Int)) := fun store =>
  .ok (["n"], (List.range (store "n").toNat).map (fun i => ((i : Int), (i : Int))))

/-- The effect of `r` at an index. -/
def look : Int → Store Int → Effect Int := fun _ store =>
  { store := store, readset := ["y"], error := none }

/-- The module. -/
def module : Module Int Int :=
  { vars := [{ name := "n", isConstant := false, makeDefaultValue := 1 },
             { name := "y", isConstant := false, makeDefaultValue := 0 }]
    invariants := []
    rules := [{ name := "r", source := .ruleFor domain look }]
    execute := fun store => store
    toJSON := fun v => v
    assignJSON := fun v j => j.getD v }

/-- The store after module load: `n = 1`, `y = 0`. -/
def store0 : Store Int := fun name => if name = "n" then 1 else 0

/-- The controller built from the module. -/
def c0 : Controller Int Int :=
  match Controller.new module store0 with
  | .ok c => c
  | .error _ =>
    { module := module, store := store0, errorHandler := defaultErrorHandler,
      execution := [], invariants := [], rulesets := [], hookCalls := [],
      resets := 0, viewUpdates := 0 }

/-- The controller after the instance `r(0)` has fired: it changed nothing and
is inactive with readset `y`. -/
def c1 : Controller Int Int := step c0 (.fire 0 0)

end Family

/-- The calls that keep the history in step with the live variables: any
public operation other than a direct `restoreState`, the mutator of a
`tryChangeState` or `wouldChangeState` and the effect of a fired rule
returning normally. -/
def Op.tracked {V J : Type} (c : Controller V J) : Op V J → Prop
  | .tryChangeState mutator => ∃ ret, (mutator c.store).2 = .ok ret
  | .fire k i => ∀ ruleset rule, c.rulesets[k]? = some ruleset →
      ruleset.rules[i]? = some rule → (rule._fire c.store).error = none
  | .wouldChangeState mutator => ∃ ret, (mutator c.store).2 = .ok ret
  | .restoreState _ => False
  | .restore _ => True
  | .resetToStartingState => True
  | .checkInvariants => True
  | .reportChanges _ => True
  | .setErrorHandler _ => True

/-- The last history entry holds the serialization of the live variables. -/
def LastIsLive {V J : Type} (c : Controller V J) : Prop :=
  ∃ last, c.execution.getLast? = some last ∧ last.state = c.serializeState

namespace Counter

/-- The counter controller after a committed `x := 1` and a `restore` to the
initial snapshot. -/
def cBack : Controller Int Int :=
  step (step c0 (.tryChangeState setOne)) (.restore snapshot0)

end Counter

/-- Every invariant record of the list is active. -/
def AllActive {V : Type} (invariants : List (Invariant V)) : Prop :=
  ∀ invariant ∈ invariants, invariant.active = true

/-! ## Ordered sets: a shallow embedding of `src/types/orderedset.js`

An operation on an ordered set value is a function from the value to the value
it leaves together with the outcome of the call.
-/

/-- The kind of an exception thrown by an ordered set: `errors.Bounds` or
`errors.Internal`. -/
inductive SetError where
  | Bounds
  | Internal
deriving DecidableEq, Repr

/-- The `indextype` of an ordered set type: a range with bounds `low` and
`high`. -/
structure IndexType where
  low : Int
  high : Int
deriving DecidableEq, Repr

/-- The `valuetype` of an ordered set type, with the value its
`makeDefaultValue()` yields. -/
structure ValueType (E : Type) where
  makeDefaultValue : E
deriving DecidableEq

/-- An `OrderedSetType`: its value type and its index type. -/
structure OrderedSetType (E : Type) where
  valuetype : ValueType E
  indextype : IndexType
deriving DecidableEq

/-- An `OrderedSetValue`: its type, the backing array `items` and the count
`used`. -/
structure OrderedSetValue (E : Type) where
  type : OrderedSetType E
  items : List E
  used : Nat
deriving DecidableEq

/-- The method `makeDefaultValue()` of the type, that is, the constructor of
`OrderedSetValue`: `high - low + 1` slots holding the element default (no slot
when that length is not positive) and `used = 0`. -/
def OrderedSetType.makeDefaultValue {E : Type} (type : OrderedSetType E) :
    OrderedSetValue E :=
  { type := type
    items := List.replicate (type.indextype.high - type.indextype.low + 1).toNat
      type.valuetype.makeDefaultValue
    used := 0 }

/-- The least shift `e`, searched upward from the given one with the given
fuel, at which `m / 2 ^ e` fits the 53 bits of a double's significand. -/
def significandShift : Nat → Nat → Nat → Nat
  | 0, _, e => e
  | fuel + 1, m, e => if m / 2 ^ e < 2 ^ 53 then e else significandShift fuel m (e + 1)

/-- The IEEE double nearest to the integer `n`, which is again an integer:
`n` itself up to magnitude `2 ^ 53`, and beyond that `n` rounded to 53
significant bits, ties to the even significand. -/
def roundToDouble (n : Int) : Int :=
  let m := n.natAbs
  let e := significandShift m m 0
  let q := m / 2 ^ e
  let r := m % 2 ^ e
  let q' := if 2 ^ e < 2 * r ∨ (2 * r = 2 ^ e ∧ q % 2 = 1) then q + 1 else q
  if n < 0 then -((q' * 2 ^ e : Nat) : Int) else ((q' * 2 ^ e : Nat) : Int)

/-- The sum `a + b` of two integer-valued JavaScript numbers: the exact sum
rounded to the nearest double. -/
def numberAdd (a b : Int) : Int := roundToDouble (a + b)

namespace OrderedSetValue

variable {E : Type}

/-- The method `usedItems()`: the items at the positions below `used`. -/
def usedItems (s : OrderedSetValue E) : List E := s.items.take s.used

/-- The method `index(i)` at a number `i`. -/
def index (s : OrderedSetValue E) (i : Int) : Except SetError E :=
  if i < s.type.indextype.low ∨ i > s.type.indextype.low + s.used then
    .error .Bounds
  else
    match s.items[(i - s.type.indextype.low).toNat]? with
    | none => .error .Internal
    | some v => .ok v

/-- The method `forEach(cb)`, given as the pairs `(v, i)` the callback is
called with, in order; the index `low + i` is a sum of JavaScript numbers. -/
def forEach (s : OrderedSetValue E) : List (E × Int) :=
  s.usedItems.enum.map (fun iv => (iv.2, numberAdd s.type.indextype.low (iv.1 : Int)))

/-- The method `contains(v)`; `x.equals(v)` is value equality. -/
def contains [DecidableEq E] (s : OrderedSetValue E) (v : E) : Bool :=
  s.forEach.any (fun xi => decide (xi.1 = v))

/-- The method `empty()`. -/
def empty (s : OrderedSetValue E) : Bool := s.used == 0

/-- The method `full()`. -/
def full (s : OrderedSetValue E) : Bool :=
  decide ((s.used : Int) = s.type.indextype.high - s.type.indextype.low + 1)

/-- The assignment `items[used] = v` on the backing array: in place below the
length, an append at the length.  A position past the length is not reached
from a default value, where `used` never exceeds the length; it is an append
here as well. -/
def assignAt (items : List E) (used : Nat) (v : E) : List E :=
  if used < items.length then items.set used v else items ++ [v]

/-- The method `push(v)`. -/
def push [DecidableEq E] (s : OrderedSetValue E) (v : E) :
    OrderedSetValue E × Except SetError Unit :=
  if s.contains v then (s, .ok ())
  else if s.full then (s, .error .Bounds)
  else ({ s with items := assignAt s.items s.used v, used := s.used + 1 }, .ok ())

/-- The method `pop()`: `items.push(default)` followed by `items.shift()`,
which removes and returns the first item; the array is not empty after the
push. -/
def pop (s : OrderedSetValue E) : OrderedSetValue E × Except SetError E :=
  if s.used = 0 then (s, .error .Bounds)
  else
    let pushed := s.items ++ [s.type.valuetype.makeDefaultValue]
    ({ s with items := pushed.tail, used := s.used - 1 },
      .ok (pushed.headD s.type.valuetype.makeDefaultValue))

/-- The method `remove(v)`. -/
def remove [DecidableEq E] (s : OrderedSetValue E) (v : E) : OrderedSetValue E × Bool :=
  match s.usedItems.findIdx? (fun item => decide (item = v)) with
  | some index =>
    ({ s with items := s.items.take index ++ s.items.drop (index + 1) ++
        [s.type.valuetype.makeDefaultValue] }, true)
  | none => (s, false)

end OrderedSetValue

/-- A call of `push`, `pop` or `remove` on an ordered set. -/
inductive SetOp (E : Type) where
  | push (v : E)
  | pop
  | remove (v : E)

/-- The ordered set after a call, whether the call returned or threw. -/
def setStep {E : Type} [DecidableEq E] (s : OrderedSetValue E) : SetOp E → OrderedSetValue E
  | .push v => (s.push v).1
  | .pop => s.pop.1
  | .remove v => (s.remove v).1

/-- The ordered sets reached from a freshly created default value of the type
by calls of `push`, `pop` and `remove`. -/
inductive SetReachable {E : Type} [DecidableEq E] (type : OrderedSetType E) :
    OrderedSetValue E → Prop where
  | fresh : SetReachable type type.makeDefaultValue
  | step (s : OrderedSetValue E) (op : SetOp E) :
      SetReachable type s → SetReachable type (setStep s op)

/-! ## Types: a shallow embedding of `src/types/types.js` -/

/-- The tests on type objects that `types.js` takes from the modules it
requires: the `instanceof` tests against `NumberType`, `RangeType`,
`Either.Type` and `Either.Variant`, and the `parenttype` property
(`none` for `undefined`).  Type objects are compared by identity, the equality
of `T`. -/
structure TypeClasses (T : Type) where
  isNumberType : T → Bool
  isRangeType : T → Bool
  isEitherType : T → Bool
  isEitherVariant : T → Bool
  parenttype : T → Option T

/-- The function `subtypeOf(sub, par)`. -/
def subtypeOf {T : Type} [DecidableEq T] (k : TypeClasses T) (sub par : T) : Bool :=
  if sub = par then true
  else if k.isNumberType sub && k.isRangeType par then true
  else if k.isRangeType sub && k.isRangeType par then true
  else if k.isEitherVariant sub && k.isEitherType par &&
      decide (k.parenttype sub = some par) then true
  else false

/-- The function `haveEquality(left, right)`. -/
def haveEquality {T : Type} [DecidableEq T] (k : TypeClasses T) (left right : T) : Bool :=
  if subtypeOf k left right then true
  else if subtypeOf k right left then true
  else if k.isEitherVariant left && k.isEitherVariant right &&
      decide (k.parenttype left = k.parenttype right) then true
  else false

/-- The function `isNumeric(t)`. -/
def isNumeric {T : Type} (k : TypeClasses T) (t : T) : Bool :=
  k.isNumberType t || k.isRangeType t

/-- The function `haveOrdering(left, right)`. -/
def haveOrdering {T : Type} (k : TypeClasses T) (left right : T) : Bool :=
  isNumeric k left && isNumeric k right

/-- Every rule instance of the rulesets has its cached readset defined exactly
when it is inactive. -/
def RulesOK {V : Type} (rulesets : List (Ruleset V)) : Prop :=
  ∀ ruleset ∈ rulesets, ∀ rule ∈ ruleset.rules,
    (rule.readset ≠ none ↔ rule.active = false)

/-! ## A parameterized rule over an ordered set

The domain expression of the rule `r` reads `s` and evaluates to an ordered
set over the index range `1..3` that holds `10` and `20`.
-/

namespace Indexed

/-- The ordered set type `OrderedSet<Number>[1..3]`. -/
def slotsType : OrderedSetType Int :=
  { valuetype := { makeDefaultValue := 0 }, indextype := { low := 1, high := 3 } }

/-- The ordered set after `push(10)` and `push(20)` on a default value. -/
def slots : OrderedSetValue Int :=
  ((slotsType.makeDefaultValue.push 10).1.push 20).1

/-- The domain expression of `r`. -/
def domain : Store Int → Except Err (Readset × List (Int × Int)) := fun _ =>
  .ok (["s"], slots.forEach)

/-- The ruleset of `r` before its first `update()`. -/
def ruleset : Ruleset Int :=
  { readset := [], rules := [],
    source := { name := "r", source := .ruleFor domain Family.look } }

/-- The ordered set type over the index range `2 ^ 53 .. 2 ^ 53 + 2`. -/
def farType : OrderedSetType Int :=
  { valuetype := { makeDefaultValue := 0 },
    indextype := { low := 9007199254740992, high := 9007199254740994 } }

/-- The ordered set after `push(10)`, `push(20)`, `push(30)` on a default
value of `farType`. -/
def farSlots : OrderedSetValue Int :=
  (((farType.makeDefaultValue.push 10).1.push 20).1.push 30).1

/-- The ruleset of a rule `r` whose domain expression evaluates to
`farSlots`, before its first `update()`. -/
def farRuleset : Ruleset Int :=
  { readset := [], rules := [],
    source := { name := "r",
                source := .ruleFor (fun _ => .ok (["s"], farSlots.forEach)) Family.look } }

end Indexed

/-- The names of the rule instances a call of `update()` leaves, when it
returns. -/
def updatedNames {V : Type} (ruleset : Ruleset V) (store : Store V) :
    Option (List String) :=
  match ruleset.update store with
  | .ok ruleset' => some (ruleset'.rules.map (fun rule => rule.name))
  | .error _ => none

/-! ## Ordered sets over the index range `0..2`

The elements are numbers with default 0; `a`, `b`, `c`, `d` of scenario 3 of
the specification are 1, 2, 3, 4.
-/

namespace Letters

/-- The ordered set type `OrderedSet<Number>[0..2]`, of capacity 3. -/
def type : OrderedSetType Int :=
  { valuetype := { makeDefaultValue := 0 }, indextype := { low := 0, high := 2 } }

/-- The set after `push(1)`. -/
def a : OrderedSetValue Int := (type.makeDefaultValue.push 1).1

/-- The set after `push(1)`, `push(2)`. -/
def ab : OrderedSetValue Int := (a.push 2).1

/-- The set after `push(1)`, `push(2)`, `push(3)`. -/
def abc : OrderedSetValue Int := (ab.push 3).1

/-- The set after `push(1)`, `push(2)`, `remove(1)`, `remove(2)`. -/
def removedBoth : OrderedSetValue Int := ((ab.remove 1).1.remove 2).1

end Letters

/-- The shape of an ordered set value of a type: it carries the type, its
backing array has `high - low + 1` slots, and `used` lies within the array. -/
def SetShape {E : Type} (type : OrderedSetType E) (s : OrderedSetValue E) : Prop :=
  s.type = type ∧
  s.items.length = (type.indextype.high - type.indextype.low + 1).toNat ∧
  s.used ≤ s.items.length

namespace Counter

/-- A mutator that sets `x := 5` and returns nothing. -/
def setFive : Mutator Int := fun store => (Function.update store "x" 5, .ok none)

/-- The counter controller after three firings of `inc`, a `restore` to the
initial snapshot and a committed `x := 5`: its history holds `x = 0` and
`x = 5`, and `snapshot1`, taken from the earlier history, is stale. -/
def cStale : Controller Int Int :=
  step (step c3 (.restore snapshot0)) (.tryChangeState setFive)

end Counter

/-! ## An ordered set over the index range `3..1` -/

namespace Degenerate

/-- The ordered set type `OrderedSet<Number>[3..1]`: `high - low + 1 = -1`. -/
def type : OrderedSetType Int :=
  { valuetype := { makeDefaultValue := 0 }, indextype := { low := 3, high := 1 } }

/-- The set after `push(1)`, `push(2)` on a default value of the type. -/
def two : OrderedSetValue Int := ((type.makeDefaultValue.push 1).1.push 2).1

end Degenerate

/-! ## Frame lemmas -/

variable {V J : Type}

section Frame

@[simp]
theorem reportChanges_store (c : Controller V J) (ch : Option Changeset) :
    (c.reportChanges ch).1.store = c.store := rfl
@[simp]
theorem reportChanges_execution (c : Controller V J) (ch : Option Changeset) :
    (c.reportChanges ch).1.execution = c.execution := rfl
@[simp]
theorem reportChanges_module (c : Controller V J) (ch : Option Changeset) :
    (c.reportChanges ch).1.module = c.module := rfl
@[simp]
theorem reportChanges_invariants (c : Controller V J) (ch : Option Changeset) :
    (c.reportChanges ch).1.invariants = c.invariants.map (reportInvariant ch) := rfl
@[simp]
theorem reportChanges_rulesets (c : Controller V J) (ch : Option Changeset) :
    (c.reportChanges ch).1.rulesets = (reportRulesets ch c.store c.rulesets).1 := rfl
@[simp]
theorem checkInvariants_store (c : Controller V J) :
    c.checkInvariants.1.store = c.store := rfl
@[simp]
theorem checkInvariants_execution (c : Controller V J) :
    c.checkInvariants.1.execution = c.execution := rfl
@[simp]
theorem checkInvariants_module (c : Controller V J) :
    c.checkInvariants.1.module = c.module := rfl
@[simp]
theorem checkInvariants_rulesets (c : Controller V J) :
    c.checkInvariants.1.rulesets = c.rulesets := rfl
@[simp]
theorem updateViews_store (c : Controller V J) : c.updateViews.store = c.store := rfl
@[simp]
theorem updateViews_execution (c : Controller V J) :
    c.updateViews.execution = c.execution := rfl
@[simp]
theorem updateViews_module (c : Controller V J) : c.updateViews.module = c.module := rfl
@[simp]
theorem restoreState_store (c : Controller V J) (s : SerializedState J) :
    (c.restoreState s).1.store = restoreStore c.module s c.store := rfl
@[simp]
theorem restoreState_execution (c : Controller V J) (s : SerializedState J) :
    (c.restoreState s).1.execution = c.execution := rfl
@[simp]
theorem restoreState_module (c : Controller V J) (s : SerializedState J) :
    (c.restoreState s).1.module = c.module := rfl

end Frame

/-! ## Serialized states -/

section Serialization

theorem lookup_objSet (s : SerializedState J) (k n : String) (v : J) :
    (objSet s k v).lookup n = if n = k then some v else s.lookup n := by
  induction s with
  | nil =>
    by_cases h : n = k
    · simp [objSet, List.lookup, h]
    · have hb : (n == k) = false := by simpa using h
      simp [objSet, List.lookup, h, hb]
  | cons p rest ih =>
    obtain ⟨k', v'⟩ := p
    by_cases hk : k' = k
    · by_cases h : n = k
      · simp [objSet, List.lookup, hk, h]
      · have hb : (n == k) = false := by simpa using h
        simp [objSet, List.lookup, hk, h, hb]
    · by_cases h' : n = k'
      · have hnk : ¬ n = k := fun h => hk (h' ▸ h)
        simp [objSet, List.lookup, hk, h', hnk]
      · have hb : (n == k') = false := by simpa using h'
        simp [objSet, List.lookup, hk, h', ih, hb]

theorem mem_keys_of_lookup (s : SerializedState J) (n : String) (v : J)
    (h : s.lookup n = some v) : n ∈ keys s := by
  induction s with
  | nil => simp [List.lookup] at h
  | cons p rest ih =>
    obtain ⟨k', v'⟩ := p
    by_cases hk : n = k'
    · simp [keys, hk]
    · have : (n == k') = false := by simpa using hk
      simp only [List.lookup, this] at h
      have := ih h
      simp only [keys, List.map_cons, List.mem_cons] at this ⊢
      exact Or.inr this

/-- The step of the loop of `serializeStore`. -/
theorem serializeStore_foldl_lookup (m : Module V J) (store : Store V) (n : String) :
    ∀ (l : List (ModelVar V)) (acc : SerializedState J),
      (l.foldl (fun state mvar =>
          if !mvar.isConstant then objSet state mvar.name (m.toJSON (store mvar.name))
          else state) acc).lookup n =
        if ∃ d ∈ l, d.isConstant = false ∧ d.name = n then some (m.toJSON (store n))
        else acc.lookup n := by
  intro l
  induction l with
  | nil => intro acc; simp
  | cons d rest ih =>
    intro acc
    rw [List.foldl_cons, ih]
    by_cases hrest : ∃ d ∈ rest, d.isConstant = false ∧ d.name = n
    · have : ∃ d' ∈ d :: rest, d'.isConstant = false ∧ d'.name = n := by
        obtain ⟨d', hd', h⟩ := hrest
        exact ⟨d', List.mem_cons_of_mem _ hd', h⟩
      rw [if_pos hrest, if_pos this]
    · rw [if_neg hrest]
      by_cases hd : d.isConstant = false ∧ d.name = n
      · have : ∃ d' ∈ d :: rest, d'.isConstant = false ∧ d'.name = n :=
          ⟨d, List.mem_cons_self _ _, hd⟩
        rw [if_pos this]
        simp [hd.1, lookup_objSet, hd.2]
      · have : ¬ ∃ d' ∈ d :: rest, d'.isConstant = false ∧ d'.name = n := by
          rintro ⟨d', hd', h⟩
          rcases List.mem_cons.1 hd' with rfl | hd'
          · exact hd h
          · exact hrest ⟨d', hd', h⟩
        rw [if_neg this]
        by_cases hc : d.isConstant = false
        · have hn : ¬ n = d.name := fun h => hd ⟨hc, h.symm⟩
          simp [hc, lookup_objSet, hn]
        · simp [hc]

theorem lookup_serializeStore (m : Module V J) (store : Store V) (d : ModelVar V)
    (hd : d ∈ m.vars) (hc : d.isConstant = false) :
    (serializeStore m store).lookup d.name = some (m.toJSON (store d.name)) := by
  unfold serializeStore
  rw [serializeStore_foldl_lookup, if_pos ⟨d, hd, hc, rfl⟩]

theorem serializeStore_congr (m : Module V J) (s1 s2 : Store V)
    (h : ∀ d ∈ m.vars, d.isConstant = false → m.toJSON (s1 d.name) = m.toJSON (s2 d.name)) :
    serializeStore m s1 = serializeStore m s2 := by
  unfold serializeStore
  generalize ([] : SerializedState J) = acc
  generalize m.vars = l at h
  induction l generalizing acc with
  | nil => rfl
  | cons d rest ih =>
    simp only [List.foldl_cons]
    have hd := h d (List.mem_cons_self _ _)
    have hrest := fun d' hd' => h d' (List.mem_cons_of_mem _ hd')
    by_cases hc : d.isConstant = false
    · simp only [hc, Bool.not_false, if_true, hd hc]
      exact ih _ hrest
    · simp only [hc, Bool.not_eq_true] 
      simp only [Bool.not_eq_false] at hc
      simp only [hc, Bool.not_true, Bool.false_eq_true, if_false]
      exact ih _ hrest

variable [DecidableEq J]

theorem compareJSON_self (s : SerializedState J) : Changesets.compareJSON s s = [] := by
  simp [Changesets.compareJSON]

theorem lookup_eq_of_compareJSON_nil (a b : SerializedState J)
    (h : Changesets.compareJSON a b = []) (n : String) (hn : n ∈ keys a ∨ n ∈ keys b) :
    a.lookup n = b.lookup n := by
  unfold Changesets.compareJSON at h
  rw [List.filter_eq_nil_iff] at h
  have := h n (by simpa using hn)
  simpa using this

theorem serializeStore_eq_of_compareJSON_nil (m : Module V J) (s0 s1 : Store V)
    (h : Changesets.compareJSON (serializeStore m s0) (serializeStore m s1) = []) :
    serializeStore m s1 = serializeStore m s0 := by
  apply serializeStore_congr
  intro d hd hc
  have h0 := lookup_serializeStore m s0 d hd hc
  have h1 := lookup_serializeStore m s1 d hd hc
  have := lookup_eq_of_compareJSON_nil _ _ h d.name (Or.inl (mem_keys_of_lookup _ _ _ h0))
  rw [h0, h1] at this
  exact (Option.some.inj this).symm

theorem equals_iff_compareJSON_nil (a b : SerializedState J) :
    SerializedState.equals a b = true ↔ Changesets.compareJSON a b = [] := by
  unfold SerializedState.equals Changesets.compareJSON
  rw [List.filter_eq_nil_iff]
  simp only [Bool.and_eq_true, List.all_eq_true, decide_eq_true_eq, List.mem_dedup,
    List.mem_append, ne_eq, Decidable.not_not]
  constructor
  · rintro ⟨h1, h2⟩ n (hn | hn)
    · exact h1 n hn
    · exact h2 n hn
  · intro h
    exact ⟨fun n hn => h n (Or.inl hn), fun n hn => h n (Or.inr hn)⟩

end Serialization

/-! ## Restoring a store -/

section Restore

theorem restoreStore_foldl_assigned (m : Module V J) (state : SerializedState J) (n : String) :
    ∀ (l : List (ModelVar V)) (st : Store V),
      ((∃ v, st n = m.assignJSON v (state.lookup n)) ∨
        ∃ d ∈ l, d.isConstant = false ∧ d.name = n) →
      ∃ v, (l.foldl (fun st mvar =>
          if !mvar.isConstant then
            Function.update st mvar.name
              (m.assignJSON (st mvar.name) (state.lookup mvar.name))
          else st) st) n = m.assignJSON v (state.lookup n) := by
  intro l
  induction l with
  | nil =>
    intro st h
    rcases h with h | ⟨d, hd, _⟩
    · exact h
    · cases hd
  | cons d rest ih =>
    intro st h
    rw [List.foldl_cons]
    apply ih
    by_cases hd : d.isConstant = false ∧ d.name = n
    · left
      refine ⟨st n, ?_⟩
      obtain ⟨hc, hn⟩ := hd
      subst hn
      simp [hc]
    · rcases h with ⟨v, hv⟩ | ⟨d', hd', h'⟩
      · left
        refine ⟨v, ?_⟩
        by_cases hc : d.isConstant = false
        · have hn : n ≠ d.name := fun h => hd ⟨hc, h.symm⟩
          simp [hc, Function.update_noteq hn, hv]
        · simp [hc, hv]
      · rcases List.mem_cons.1 hd' with rfl | hd'
        · exact absurd h' hd
        · exact Or.inr ⟨d', hd', h'⟩

/-- Restoring a serialization and serializing again gives the serialization
back, when `assignJSON` undoes `toJSON`. -/
theorem serializeStore_restoreStore (m : Module V J) (s0 st : Store V)
    (hrt : ∀ v w, m.toJSON (m.assignJSON v (some (m.toJSON w))) = m.toJSON w) :
    serializeStore m (restoreStore m (serializeStore m s0) st) = serializeStore m s0 := by
  apply serializeStore_congr
  intro d hd hc
  obtain ⟨v, hv⟩ := restoreStore_foldl_assigned m (serializeStore m s0) d.name m.vars st
    (Or.inr ⟨d, hd, hc, rfl⟩)
  unfold restoreStore
  rw [hv, lookup_serializeStore m s0 d hd hc, hrt]

end Restore

/-! ## The operations on history, store and module -/

section Operations

theorem restore_module (c : Controller V J) (snapshot : Snapshot J) :
    (c.restore snapshot).1.module = c.module := by
  unfold Controller.restore
  dsimp only
  split
  · rfl
  · split
    · rfl
    · split
      · rfl
      · split <;> rfl

theorem restore_execution (c : Controller V J) (snapshot : Snapshot J) :
    (c.restore snapshot).1.execution = c.execution.take (snapshot.index + 1) := by
  unfold Controller.restore
  dsimp only
  split
  · rfl
  · split
    · rfl
    · split
      · rfl
      · split <;> rfl

theorem restore_store (c : Controller V J) (snapshot last : Snapshot J)
    (hlast : (c.execution.take (snapshot.index + 1)).getLast? = some last) :
    (c.restore snapshot).1.store = restoreStore c.module last.state c.store := by
  unfold Controller.restore
  simp only [hlast]
  split
  · rfl
  · split
    · rfl
    · split <;> rfl

variable [DecidableEq J]

theorem tryChangeState_module (c : Controller V J) (mutator : Mutator V) :
    (c.tryChangeState mutator).1.module = c.module := by
  unfold Controller.tryChangeState
  split
  · rfl
  · dsimp only
    split
    · rfl
    · split
      · rfl
      · split
        · rfl
        · split <;> rfl

theorem tryChangeState_store (c : Controller V J) (mutator : Mutator V)
    (last : Snapshot J) (hlast : c.execution.getLast? = some last) :
    (c.tryChangeState mutator).1.store = (mutator c.store).1 := by
  unfold Controller.tryChangeState
  rw [hlast]
  dsimp only
  split
  · rfl
  · split
    · rfl
    · split
      · rfl
      · split <;> rfl

/-- A mutator that returns without a diff: nothing but the store is touched. -/
theorem tryChangeState_unchanged (c : Controller V J) (mutator : Mutator V)
    (last : Snapshot J) (ret : Option String)
    (hlast : c.execution.getLast? = some last)
    (hmut : (mutator c.store).2 = .ok ret)
    (hdiff : Changesets.compareJSON last.state
      (serializeStore c.module (mutator c.store).1) = []) :
    c.tryChangeState mutator = ({ c with store := (mutator c.store).1 }, .ok []) := by
  unfold Controller.tryChangeState
  rw [hlast]
  simp only [hmut, Controller.serializeState, hdiff, Changesets.empty, List.isEmpty_nil,
    if_true]

/-- A mutator that returns with a diff: the snapshot is pushed. -/
theorem tryChangeState_commit (c : Controller V J) (mutator : Mutator V)
    (last : Snapshot J) (ret : Option String)
    (hlast : c.execution.getLast? = some last)
    (hmut : (mutator c.store).2 = .ok ret)
    (hdiff : Changesets.compareJSON last.state
      (serializeStore c.module (mutator c.store).1) ≠ []) :
    (c.tryChangeState mutator).1.execution = c.execution ++
      [{ msg := ret.getD "state changed" ++ " (changed " ++
            ", ".intercalate (Changesets.compareJSON last.state
              (serializeStore c.module (mutator c.store).1)) ++ ")"
         state := serializeStore c.module (mutator c.store).1
         index := c.execution.length }] := by
  have hne : Changesets.empty (Changesets.compareJSON last.state
      (serializeStore c.module (mutator c.store).1)) = false := by
    simpa [Changesets.empty] using hdiff
  unfold Controller.tryChangeState
  rw [hlast]
  simp only [hmut, Controller.serializeState, hne, Bool.false_eq_true, if_false]
  split
  · rfl
  · split <;> rfl

theorem tryChangeState_execution_cases (c : Controller V J) (mutator : Mutator V) :
    (c.tryChangeState mutator).1.execution = c.execution ∨
    ∃ msg, (c.tryChangeState mutator).1.execution = c.execution ++
      [{ msg := msg, state := serializeStore c.module (mutator c.store).1,
         index := c.execution.length }] := by
  cases hlast : c.execution.getLast? with
  | none => left; unfold Controller.tryChangeState; rw [hlast]
  | some last =>
    cases hmut : (mutator c.store).2 with
    | error e =>
      left; unfold Controller.tryChangeState; rw [hlast]; simp only [hmut]
    | ok ret =>
      by_cases hdiff : Changesets.compareJSON last.state
          (serializeStore c.module (mutator c.store).1) = []
      · left; rw [tryChangeState_unchanged c mutator last ret hlast hmut hdiff]
      · right; exact ⟨_, tryChangeState_commit c mutator last ret hlast hmut hdiff⟩

theorem fire_module (c : Controller V J) (k i : Nat) :
    (Rule.fire c k i).1.module = c.module := by
  unfold Rule.fire
  split
  · rfl
  · split
    · rfl
    · dsimp only
      split
      · exact tryChangeState_module _ _
      · split
        · exact tryChangeState_module _ _
        · exact tryChangeState_module _ _

theorem fire_execution (c : Controller V J) (k i : Nat) :
    (Rule.fire c k i).1.execution = c.execution ∨
    ∃ mutator, (Rule.fire c k i).1.execution = (c.tryChangeState mutator).1.execution := by
  unfold Rule.fire
  split
  · left; rfl
  · split
    · left; rfl
    · right
      rename_i rule _
      refine ⟨rule.mutator, ?_⟩
      dsimp only
      split
      · rfl
      · split <;> rfl

theorem wouldChangeState_module (c : Controller V J) (mutator : Mutator V) :
    (c.wouldChangeState mutator).1.module = c.module := by
  unfold Controller.wouldChangeState
  split
  · rfl
  · dsimp only
    split
    · rfl
    · split
      · rfl
      · split <;> rfl

theorem wouldChangeState_execution (c : Controller V J) (mutator : Mutator V) :
    (c.wouldChangeState mutator).1.execution = c.execution := by
  unfold Controller.wouldChangeState
  split
  · rfl
  · dsimp only
    split
    · rfl
    · split
      · rfl
      · split <;> rfl

end Operations

/-! ## The history of a reachable controller -/

section History

theorem historyOK_of_eq (c c' : Controller V J) (hm : c'.module = c.module)
    (he : c'.execution = c.execution) (h : HistoryOK c) : HistoryOK c' := by
  unfold HistoryOK at *
  rw [he, hm]
  exact h

theorem historyOK_append (c c' : Controller V J) (hm : c'.module = c.module)
    (msg : String) (store : Store V)
    (he : c'.execution = c.execution ++
      [{ msg := msg, state := serializeStore c.module store, index := c.execution.length }])
    (h : HistoryOK c) : HistoryOK c' := by
  obtain ⟨_, hidx, hser⟩ := h
  refine ⟨?_, ?_, ?_⟩
  · rw [he]; simp
  · intro i s hs
    rw [he] at hs
    by_cases hi : i < c.execution.length
    · rw [List.getElem?_append_left hi] at hs
      exact hidx i s hs
    · have hge : c.execution.length ≤ i := Nat.le_of_not_lt hi
      rw [List.getElem?_append_right hge] at hs
      by_cases h0 : i - c.execution.length = 0
      · rw [h0] at hs
        simp only [List.getElem?_cons_zero, Option.some.injEq] at hs
        subst hs
        simp only
        omega
      · obtain ⟨j, hj⟩ := Nat.exists_eq_succ_of_ne_zero h0
        rw [hj] at hs
        simp at hs
  · intro s hs
    rw [he] at hs
    rw [hm]
    rcases List.mem_append.1 hs with hs | hs
    · exact hser s hs
    · simp only [List.mem_singleton] at hs
      subst hs
      exact ⟨store, rfl⟩

theorem historyOK_take (c c' : Controller V J) (hm : c'.module = c.module) (n : Nat)
    (he : c'.execution = c.execution.take (n + 1))
    (h : HistoryOK c) : HistoryOK c' := by
  obtain ⟨hne, hidx, hser⟩ := h
  refine ⟨?_, ?_, ?_⟩
  · rw [he]
    cases hc : c.execution with
    | nil => exact absurd hc hne
    | cons a l => simp
  · intro i s hs
    rw [he] at hs
    rw [List.getElem?_take] at hs
    split at hs
    · exact hidx i s hs
    · cases hs
  · intro s hs
    rw [he] at hs
    rw [hm]
    exact hser s (List.mem_of_mem_take hs)

theorem historyOK_singleton (c c' : Controller V J) (hm : c'.module = c.module)
    (msg : String) (store : Store V)
    (he : c'.execution = [{ msg := msg, state := serializeStore c.module store, index := 0 }]) :
    HistoryOK c' := by
  refine ⟨?_, ?_, ?_⟩
  · rw [he]; simp
  · intro i s hs
    rw [he] at hs
    cases i with
    | zero =>
      simp only [List.getElem?_cons_zero, Option.some.injEq] at hs
      subst hs; rfl
    | succ j => simp at hs
  · intro s hs
    rw [he] at hs
    rw [hm]
    simp only [List.mem_singleton] at hs
    subst hs
    exact ⟨store, rfl⟩

/-- What the constructor leaves in the fields it does not compute by loops. -/
theorem new_fields (m : Module V J) (store : Store V) (c : Controller V J)
    (h : Controller.new m store = .ok c) :
    c.module = m ∧ c.store = store ∧
    c.execution = [{ msg := "Initial state", state := serializeStore m store, index := 0 }] := by
  unfold Controller.new at h
  dsimp only at h
  split at h
  · cases h
  · split at h
    · cases h
    · injection h with h
      subst h
      exact ⟨rfl, rfl, rfl⟩

variable [DecidableEq J]

theorem step_module (c : Controller V J) (op : Op V J) : (step c op).module = c.module := by
  cases op with
  | tryChangeState mutator => exact tryChangeState_module c mutator
  | fire k i => exact fire_module c k i
  | wouldChangeState mutator => exact wouldChangeState_module c mutator
  | restoreState state => rfl
  | restore snapshot => exact restore_module c snapshot
  | resetToStartingState => rfl
  | checkInvariants => rfl
  | reportChanges changes => rfl
  | setErrorHandler handler => rfl

theorem step_historyOK (c : Controller V J) (op : Op V J) (h : HistoryOK c) :
    HistoryOK (step c op) := by
  have hm := step_module c op
  cases op with
  | tryChangeState mutator =>
    rcases tryChangeState_execution_cases c mutator with he | ⟨msg, he⟩
    · exact historyOK_of_eq c _ hm he h
    · exact historyOK_append c _ hm msg _ he h
  | fire k i =>
    rcases fire_execution c k i with he | ⟨mutator, he⟩
    · exact historyOK_of_eq c _ hm he h
    · rcases tryChangeState_execution_cases c mutator with he' | ⟨msg, he'⟩
      · exact historyOK_of_eq c _ hm (he.trans he') h
      · exact historyOK_append c _ hm msg _ (he.trans he') h
  | wouldChangeState mutator =>
    exact historyOK_of_eq c _ hm (wouldChangeState_execution c mutator) h
  | restoreState state => exact historyOK_of_eq c _ hm rfl h
  | restore snapshot =>
    exact historyOK_take c _ hm snapshot.index (restore_execution c snapshot) h
  | resetToStartingState =>
    exact historyOK_singleton c _ hm "Reset" _ rfl
  | checkInvariants => exact historyOK_of_eq c _ hm rfl h
  | reportChanges changes => exact historyOK_of_eq c _ hm rfl h
  | setErrorHandler handler => exact historyOK_of_eq c _ hm rfl h

theorem reachableVia_historyOK (allowed : Controller V J → Op V J → Prop)
    (c : Controller V J) (h : ReachableVia allowed c) : HistoryOK c := by
  induction h with
  | init m store c hnew =>
    obtain ⟨hm, _, he⟩ := new_fields m store c hnew
    exact historyOK_singleton c c rfl "Initial state" store (by rw [he, hm])
  | step c op _ _ ih => exact step_historyOK c op ih

end History

/-! ## Committed transitions -/

section Commit

theorem index_positional_append (l : List (Snapshot J)) (entry : Snapshot J)
    (hentry : entry.index = l.length)
    (hpos : ∀ (i : Nat) (s : Snapshot J), l[i]? = some s → s.index = i) :
    ∀ (i : Nat) (s : Snapshot J), (l ++ [entry])[i]? = some s → s.index = i := by
  intro i s hs
  by_cases hi : i < l.length
  · rw [List.getElem?_append_left hi] at hs
    exact hpos i s hs
  · have hge : l.length ≤ i := Nat.le_of_not_lt hi
    rw [List.getElem?_append_right hge] at hs
    by_cases h0 : i - l.length = 0
    · rw [h0] at hs
      simp only [List.getElem?_cons_zero, Option.some.injEq] at hs
      subst hs
      omega
    · obtain ⟨j, hj⟩ := Nat.exists_eq_succ_of_ne_zero h0
      rw [hj] at hs
      simp at hs

variable [DecidableEq J]

/-- C1.  A `tryChangeState` whose mutator returns and leaves a serialized state
that differs from the last snapshot's state (a non-empty diff) appends exactly
one entry to the history: the earlier entries are unchanged, the new entry's
index is the history length before the call, and its state is the
serialization of the live variables right after the call, hence deep-equal to
it.  This holds whether or not the invariant check that follows raises.  When
every entry before the call sits at the position its index names, so does
every entry after it; so commits from the initial state yield the indices
0, 1, 2, 3 and so on. -/
theorem tryChangeState_commits_snapshot (c : Controller V J) (mutator : Mutator V)
    (last : Snapshot J) (ret : Option String)
    (hlast : c.execution.getLast? = some last)
    (hmut : (mutator c.store).2 = .ok ret)
    (hdiff : Changesets.compareJSON last.state
      (serializeStore c.module (mutator c.store).1) ≠ []) :
    (∃ entry : Snapshot J,
      (c.tryChangeState mutator).1.execution = c.execution ++ [entry] ∧
      (c.tryChangeState mutator).1.execution.length = c.execution.length + 1 ∧
      entry.index = c.execution.length ∧
      entry.state = (c.tryChangeState mutator).1.serializeState ∧
      SerializedState.equals entry.state
        (c.tryChangeState mutator).1.serializeState = true) ∧
    ((∀ (i : Nat) (s : Snapshot J), c.execution[i]? = some s → s.index = i) →
      ∀ (i : Nat) (s : Snapshot J),
        (c.tryChangeState mutator).1.execution[i]? = some s → s.index = i) := by
  have he := tryChangeState_commit c mutator last ret hlast hmut hdiff
  have hs := tryChangeState_store c mutator last hlast
  have hm := tryChangeState_module c mutator
  have hstate : serializeStore c.module (mutator c.store).1 =
      (c.tryChangeState mutator).1.serializeState := by
    unfold Controller.serializeState
    rw [hs, hm]
  refine ⟨⟨_, he, ?_, rfl, hstate, ?_⟩, ?_⟩
  · rw [he]; simp
  · rw [equals_iff_compareJSON_nil]
    simp only
    rw [hstate]
    exact compareJSON_self _
  · intro hpos i s hi
    rw [he] at hi
    exact index_positional_append c.execution _ rfl hpos i s hi

/-- Scenario 1 of the specification on the counter model: the first firing of
`inc` commits one snapshot, and three firings from the initial state yield the
history `x = 0, 1, 2, 3` with indices `0, 1, 2, 3`. -/
theorem tryChangeState_commits_snapshot_witness :
    (∃ entry : Snapshot Int,
      (Counter.c0.tryChangeState (makeRule "inc" Counter.inc).mutator).1.execution =
        Counter.c0.execution ++ [entry] ∧
      (Counter.c0.tryChangeState (makeRule "inc" Counter.inc).mutator).1.execution.length =
        Counter.c0.execution.length + 1 ∧
      entry.index = Counter.c0.execution.length ∧
      entry.state =
        (Counter.c0.tryChangeState (makeRule "inc" Counter.inc).mutator).1.serializeState ∧
      SerializedState.equals entry.state
        (Counter.c0.tryChangeState
          (makeRule "inc" Counter.inc).mutator).1.serializeState = true) ∧
    (Counter.c0.tryChangeState (makeRule "inc" Counter.inc).mutator).1.execution.map
        (fun s => (s.index, s.state)) = [(0, [("x", 0)]), (1, [("x", 1)])] ∧
    (step (step (step Counter.c0 (.fire 0 0)) (.fire 0 0)) (.fire 0 0)).execution.map
        (fun s => (s.index, s.state)) =
      [(0, [("x", 0)]), (1, [("x", 1)]), (2, [("x", 2)]), (3, [("x", 3)])] :=
  ⟨(tryChangeState_commits_snapshot Counter.c0 (makeRule "inc" Counter.inc).mutator
      ⟨"Initial state", [("x", 0)], 0⟩ (some "inc") rfl rfl (by decide)).1,
    by decide, by decide⟩

/-- C2.  Firing a rule instance of the controller whose effect returns and
leaves a serialized state deep-equal to the last snapshot's state returns the
empty changeset, leaves the history as it was, and leaves that instance with
`active = false` and with the readset its effect recorded; no other rule
instance is touched. -/
theorem fire_without_diff_deactivates (c : Controller V J) (k i : Nat)
    (ruleset : Ruleset V) (rule : Rule V) (last : Snapshot J)
    (hk : c.rulesets[k]? = some ruleset) (hi : ruleset.rules[i]? = some rule)
    (hlast : c.execution.getLast? = some last)
    (hret : (rule._fire c.store).error = none)
    (hsame : SerializedState.equals last.state
      (serializeStore c.module (rule._fire c.store).store) = true) :
    (Rule.fire c k i).2 = .ok [] ∧
    (Rule.fire c k i).1.execution = c.execution ∧
    (Rule.fire c k i).1.rulesets = c.rulesets.set k
      { ruleset with rules := (ruleset.rules.set i
          { rule with active := false, readset := some (rule._fire c.store).readset }) } ∧
    ∃ ruleset' rule', (Rule.fire c k i).1.rulesets[k]? = some ruleset' ∧
      ruleset'.rules[i]? = some rule' ∧ rule'.active = false ∧
      rule'.readset = some (rule._fire c.store).readset := by
  have hmut : (rule.mutator c.store).2 = .ok (some rule.name) := by
    simp only [Rule.mutator, hret]
  have hdiff : Changesets.compareJSON last.state
      (serializeStore c.module (rule.mutator c.store).1) = [] :=
    (equals_iff_compareJSON_nil _ _).1 hsame
  have htry := tryChangeState_unchanged c rule.mutator last (some rule.name) hlast hmut hdiff
  have hfire : Rule.fire c k i =
      ({ c with
          store := (rule.mutator c.store).1
          rulesets := c.rulesets.set k
            { ruleset with rules := (ruleset.rules.set i
                { rule with active := false,
                            readset := some (rule._fire c.store).readset }) } },
        .ok []) := by
    unfold Rule.fire
    simp only [hk, hi, htry, Changesets.empty, List.isEmpty_nil, if_true]
  rw [hfire]
  refine ⟨rfl, rfl, rfl,
    { ruleset with rules := (ruleset.rules.set i
        { rule with active := false, readset := some (rule._fire c.store).readset }) },
    { rule with active := false, readset := some (rule._fire c.store).readset },
    ?_, ?_, rfl, rfl⟩
  · have hklt : k < c.rulesets.length := by
      rcases List.getElem?_eq_some_iff.1 hk with ⟨h, _⟩; exact h
    simp only [List.getElem?_set_self hklt]
  · have hilt : i < ruleset.rules.length := by
      rcases List.getElem?_eq_some_iff.1 hi with ⟨h, _⟩; exact h
    simp only [List.getElem?_set_self hilt]

/-- On the counter model, firing `idle` from the initial state changes nothing
and leaves `idle` inactive with readset `x`. -/
theorem fire_without_diff_deactivates_witness :
    (Rule.fire Counter.c0 1 0).2 = .ok [] ∧
    (Rule.fire Counter.c0 1 0).1.execution = Counter.c0.execution ∧
    (Rule.fire Counter.c0 1 0).1.rulesets = Counter.c0.rulesets.set 1
      { ({ readset := [], rules := [makeRule "idle" Counter.idle],
           source := { name := "idle", source := .simple Counter.idle } } : Ruleset Int)
        with rules := ([makeRule "idle" Counter.idle].set 0
          { makeRule "idle" Counter.idle with
            active := false
            readset := some ((makeRule "idle" Counter.idle)._fire Counter.c0.store).readset }) } ∧
    ∃ ruleset' rule', (Rule.fire Counter.c0 1 0).1.rulesets[1]? = some ruleset' ∧
      ruleset'.rules[0]? = some rule' ∧ rule'.active = false ∧
      rule'.readset = some ((makeRule "idle" Counter.idle)._fire Counter.c0.store).readset :=
  fire_without_diff_deactivates Counter.c0 1 0
    { readset := [], rules := [makeRule "idle" Counter.idle],
      source := { name := "idle", source := .simple Counter.idle } }
    (makeRule "idle" Counter.idle) ⟨"Initial state", [("x", 0)], 0⟩ rfl rfl rfl rfl
    (by decide)

end Commit

/-! ## Restoring a snapshot -/

section RestoreSnapshot

theorem getLast?_take_succ {α : Type} (l : List α) (i : Nat) (a : α)
    (h : l[i]? = some a) : (l.take (i + 1)).getLast? = some a := by
  have hi : i < l.length := by
    rcases List.getElem?_eq_some_iff.1 h with ⟨h, _⟩; exact h
  rw [List.getLast?_eq_getElem?, List.length_take, List.getElem?_take]
  have : min (i + 1) l.length - 1 = i := by omega
  rw [this, if_pos (Nat.lt_succ_self i)]
  exact h

variable [DecidableEq J]

/-- What `restore` does for an object whose index lies within the history of
a reachable controller. -/
theorem restore_history_entry (c : Controller V J) (s entry : Snapshot J)
    (hreach : Reachable c)
    (hentry : c.execution[s.index]? = some entry)
    (hrt : ∀ v w, c.module.toJSON (c.module.assignJSON v (some (c.module.toJSON w))) =
      c.module.toJSON w) :
    (c.restore s).1.execution.length = s.index + 1 ∧
    (c.restore s).1.serializeState = entry.state ∧
    (s ∈ c.execution → entry = s) := by
  obtain ⟨_, hpos, hser⟩ := reachableVia_historyOK _ c hreach
  have hidx : s.index < c.execution.length := by
    rcases List.getElem?_eq_some_iff.1 hentry with ⟨h, _⟩; exact h
  refine ⟨?_, ?_, ?_⟩
  · rw [restore_execution, List.length_take]
    omega
  · have hlast := getLast?_take_succ c.execution s.index entry hentry
    obtain ⟨st, hst⟩ := hser entry (List.getElem?_mem hentry)
    unfold Controller.serializeState
    rw [restore_store c s entry hlast, restore_module, hst]
    exact serializeStore_restoreStore c.module st c.store hrt
  · intro hs
    obtain ⟨i, hi⟩ := List.getElem?_of_mem hs
    have := hpos i s hi
    rw [← this, hentry] at hi
    exact Option.some.inj hi

/-- C3, as stated, fails.  On the counter model, `snapshot1` (index 1, state
`x = 1`) is an entry of the history after three firings of `inc`.  After a
`restore` to the initial snapshot and a committed `x := 5` the history has two
entries, so the index of `snapshot1` lies within it; `restore(snapshot1)`
returns normally, the history has length 2, and the live state is `x = 5`,
the state of the entry now at index 1, not the state `x = 1` of the
snapshot. -/
theorem restore_ignores_snapshot_state :
    Reachable Counter.cStale ∧
    Counter.snapshot1 ∈ Counter.c3.execution ∧
    Counter.snapshot1.index < Counter.cStale.execution.length ∧
    (Counter.cStale.restore Counter.snapshot1).2 = .ok () ∧
    (Counter.cStale.restore Counter.snapshot1).1.execution.length = 2 ∧
    (Counter.cStale.restore Counter.snapshot1).1.serializeState = [("x", 5)] ∧
    Counter.snapshot1.state = [("x", 1)] ∧
    SerializedState.equals (Counter.cStale.restore Counter.snapshot1).1.serializeState
      Counter.snapshot1.state = false :=
  ⟨.step _ (.tryChangeState Counter.setFive) (.step _ (.restore Counter.snapshot0)
      (.step _ (.fire 0 0) (.step _ (.fire 0 0) (.step _ (.fire 0 0)
        (.init Counter.module Counter.store0 Counter.c0 rfl) trivial) trivial) trivial)
      trivial) trivial,
    by decide, by decide, rfl, by decide, by decide, rfl, by decide⟩

/-- C3, amended.  For every object `s` whose index lies within the history of
a reachable controller, `0 ≤ s.index < ` history length, after `restore(s)`
the history has length `s.index + 1` and the serialization of the live
variables is, and so deep-equals, the state of the history entry at index
`s.index`, provided `assignJSON` undoes `toJSON`; `restore` reads nothing of
`s` but its index.  That entry is `s` itself, and the live state `s.state`,
when `s` is an entry of the current history.  Whether the final invariant
check raises makes no difference to either. -/
theorem restore_restores_history_entry (c : Controller V J) (s : Snapshot J)
    (hreach : Reachable c)
    (hidx : s.index < c.execution.length)
    (hrt : ∀ v w, c.module.toJSON (c.module.assignJSON v (some (c.module.toJSON w))) =
      c.module.toJSON w) :
    (c.restore s).1.execution.length = s.index + 1 ∧
    (∃ entry, c.execution[s.index]? = some entry ∧
      (c.restore s).1.serializeState = entry.state ∧
      SerializedState.equals (c.restore s).1.serializeState entry.state = true) ∧
    (s ∈ c.execution →
      (c.restore s).1.serializeState = s.state ∧
      SerializedState.equals (c.restore s).1.serializeState s.state = true) := by
  obtain ⟨entry, hentry⟩ : ∃ entry, c.execution[s.index]? = some entry :=
    ⟨c.execution[s.index], List.getElem?_eq_getElem hidx⟩
  obtain ⟨hlen, hlive, hsame⟩ := restore_history_entry c s entry hreach hentry hrt
  have heq : SerializedState.equals (c.restore s).1.serializeState entry.state = true := by
    rw [hlive, equals_iff_compareJSON_nil]
    exact compareJSON_self _
  refine ⟨hlen, ⟨entry, hentry, hlive, heq⟩, ?_⟩
  intro hs
  have h := hsame hs
  rw [h] at hlive heq
  exact ⟨hlive, heq⟩

/-- Scenario 4 of the specification on the counter model: after three
committed transitions, `restore` to the snapshot at index 1, an entry of the
history, leaves a history of length 2 and the live state `x = 1` of that
snapshot. -/
theorem restore_restores_history_entry_witness :
    (Counter.c3.restore Counter.snapshot1).1.execution.length = 1 + 1 ∧
    (Counter.c3.restore Counter.snapshot1).1.serializeState = [("x", 1)] ∧
    SerializedState.equals (Counter.c3.restore Counter.snapshot1).1.serializeState
      [("x", 1)] = true :=
  ⟨(restore_restores_history_entry Counter.c3 Counter.snapshot1
      (.step _ (.fire 0 0) (.step _ (.fire 0 0) (.step _ (.fire 0 0)
        (.init Counter.module Counter.store0 Counter.c0 rfl) trivial) trivial) trivial)
      (by decide) (fun _ _ => rfl)).1,
    (restore_restores_history_entry Counter.c3 Counter.snapshot1
      (.step _ (.fire 0 0) (.step _ (.fire 0 0) (.step _ (.fire 0 0)
        (.init Counter.module Counter.store0 Counter.c0 rfl) trivial) trivial) trivial)
      (by decide) (fun _ _ => rfl)).2.2 (by decide)⟩

end RestoreSnapshot

/-! ## Probing with `wouldChangeState` -/

section Probe

variable [DecidableEq J]

/-- C4, as stated, fails.  On the counter model, fire `inc` once and call
`restoreState` with the initial snapshot's state: the live state is `x = 0`
while the last snapshot holds `x = 1`.  Probing with the mutator `x := 1` then
returns `false` and leaves the live state `x = 1`. -/
theorem wouldChangeState_alters_live_state :
    Reachable Counter.c1r ∧
    Counter.c1r.serializeState = [("x", 0)] ∧
    (Counter.c1r.wouldChangeState Counter.setOne).2 = .ok none ∧
    (Counter.c1r.wouldChangeState Counter.setOne).1.serializeState = [("x", 1)] :=
  ⟨.step _ (.restoreState [("x", 0)]) (.step _ (.fire 0 0)
      (.init Counter.module Counter.store0 Counter.c0 rfl) trivial) trivial,
    by decide, rfl, by decide⟩

/-- C4, amended.  In a controller state whose last history entry holds the
serialization of the live variables, and with variables whose `assignJSON`
undoes `toJSON`, a `wouldChangeState` whose mutator returns leaves the
serialization of the live variables and the history as they were before the
call, and it returns `false` exactly when the mutated state does not differ
from the last snapshot's state. -/
theorem wouldChangeState_is_probe (c : Controller V J) (mutator : Mutator V)
    (last : Snapshot J) (ret : Option String)
    (hlast : c.execution.getLast? = some last)
    (hlive : last.state = c.serializeState)
    (hrt : ∀ v w, c.module.toJSON (c.module.assignJSON v (some (c.module.toJSON w))) =
      c.module.toJSON w)
    (hmut : (mutator c.store).2 = .ok ret) :
    (c.wouldChangeState mutator).1.serializeState = c.serializeState ∧
    (c.wouldChangeState mutator).1.execution = c.execution ∧
    ((c.wouldChangeState mutator).2 = .ok none ↔
      SerializedState.equals last.state
        (serializeStore c.module (mutator c.store).1) = true) := by
  refine ⟨?_, wouldChangeState_execution c mutator, ?_⟩
  · unfold Controller.serializeState
    rw [wouldChangeState_module]
    unfold Controller.serializeState at hlive
    by_cases hdiff : Changesets.compareJSON last.state
        (serializeStore c.module (mutator c.store).1) = []
    · have hst : (c.wouldChangeState mutator).1.store = (mutator c.store).1 := by
        unfold Controller.wouldChangeState
        rw [hlast]
        simp only [hmut, Controller.serializeState, hdiff, Changesets.empty,
          List.isEmpty_nil, if_true]
      rw [hst]
      rw [hlive] at hdiff
      exact serializeStore_eq_of_compareJSON_nil c.module c.store _ hdiff
    · have hne : Changesets.empty (Changesets.compareJSON last.state
          (serializeStore c.module (mutator c.store).1)) = false := by
        simpa [Changesets.empty] using hdiff
      have hst : (c.wouldChangeState mutator).1.store =
          restoreStore c.module last.state (mutator c.store).1 := by
        unfold Controller.wouldChangeState
        rw [hlast]
        simp only [hmut, Controller.serializeState, hne, Bool.false_eq_true, if_false]
        split <;> rfl
      rw [hst, hlive]
      exact serializeStore_restoreStore c.module c.store _ hrt
  · rw [equals_iff_compareJSON_nil]
    by_cases hdiff : Changesets.compareJSON last.state
        (serializeStore c.module (mutator c.store).1) = []
    · have hres : (c.wouldChangeState mutator).2 = .ok none := by
        unfold Controller.wouldChangeState
        rw [hlast]
        simp only [hmut, Controller.serializeState, hdiff, Changesets.empty,
          List.isEmpty_nil, if_true]
      exact ⟨fun _ => hdiff, fun _ => hres⟩
    · have hne : Changesets.empty (Changesets.compareJSON last.state
          (serializeStore c.module (mutator c.store).1)) = false := by
        simpa [Changesets.empty] using hdiff
      have hres : (c.wouldChangeState mutator).2 ≠ .ok none := by
        unfold Controller.wouldChangeState
        rw [hlast]
        simp only [hmut, Controller.serializeState, hne, Bool.false_eq_true, if_false]
        split
        · intro h; cases h
        · intro h; cases h
      exact ⟨fun h => absurd h hres, fun h => absurd h hdiff⟩

/-- On the counter model after three firings of `inc`, probing with the
mutator `x := 1` reports a change and leaves `x = 3` and the history of four
entries in place. -/
theorem wouldChangeState_is_probe_witness :
    (Counter.c3.wouldChangeState Counter.setOne).1.serializeState =
      Counter.c3.serializeState ∧
    (Counter.c3.wouldChangeState Counter.setOne).1.execution = Counter.c3.execution ∧
    ((Counter.c3.wouldChangeState Counter.setOne).2 = .ok none ↔
      SerializedState.equals [("x", 3)]
        (serializeStore Counter.c3.module (Counter.setOne Counter.c3.store).1) = true) :=
  wouldChangeState_is_probe Counter.c3 Counter.setOne
    ⟨"inc (changed x)", [("x", 3)], 3⟩ none rfl (by decide) (fun _ _ => rfl) rfl

end Probe

/-! ## Checking invariants -/

section CheckInvariants

theorem checkLoop_all_pass (store : Store V) (handler : String → Err → Option Err) :
    ∀ (l : List (Invariant V)) (calls : List (String × Err)),
      (∀ inv ∈ l, inv.passes store) →
      checkLoop store handler l calls = (l.map (Invariant.cached store), calls, .ok true) := by
  intro l
  induction l with
  | nil => intro calls _; rfl
  | cons inv rest ih =>
    intro calls h
    have hrest := ih calls (fun p hp => h p (List.mem_cons_of_mem _ hp))
    have hinv := h inv (List.mem_cons_self _ _)
    unfold checkLoop
    by_cases ha : inv.active = true
    · obtain ⟨rs, hrs⟩ := hinv ha
      simp only [ha, if_true, hrs, hrest, List.map_cons, Invariant.cached]
    · simp only [ha, Bool.false_eq_true, if_false, hrest, List.map_cons, Invariant.cached]

theorem checkLoop_first_failure (store : Store V) (handler : String → Err → Option Err)
    (inv : Invariant V) (post : List (Invariant V)) (e : Err)
    (ha : inv.active = true) (he : inv.check store = .error e) :
    ∀ (pre : List (Invariant V)) (calls : List (String × Err)),
      (∀ p ∈ pre, p.passes store) →
      checkLoop store handler (pre ++ inv :: post) calls =
        (pre.map (Invariant.cached store) ++ inv :: post,
          if e.isRuntime then
            calls ++ [("Failed invariant " ++ inv.name ++ ": " ++ e.text, e)]
          else calls,
          if e.isRuntime then
            match handler ("Failed invariant " ++ inv.name ++ ": " ++ e.text) e with
            | some thrown => .error thrown
            | none => .ok false
          else .error e) := by
  intro pre
  induction pre with
  | nil =>
    intro calls _
    simp only [List.nil_append, List.map_nil]
    unfold checkLoop
    simp only [ha, if_true, he]
    by_cases hr : e.isRuntime = true
    · simp only [hr, if_true]
      split <;> rfl
    · simp only [hr, Bool.false_eq_true, if_false]
  | cons p pre ih =>
    intro calls h
    have hrest := ih calls (fun q hq => h q (List.mem_cons_of_mem _ hq))
    have hp := h p (List.mem_cons_self _ _)
    simp only [List.cons_append, List.map_cons]
    unfold checkLoop
    by_cases hpa : p.active = true
    · obtain ⟨rs, hrs⟩ := hp hpa
      simp only [hpa, if_true, hrs, hrest, Invariant.cached]
    · simp only [hpa, Bool.false_eq_true, if_false, hrest, Invariant.cached]

theorem pass_or_first_failure (store : Store V) :
    ∀ l : List (Invariant V),
      (∀ inv ∈ l, inv.passes store) ∨
      ∃ pre inv post e, l = pre ++ inv :: post ∧ (∀ p ∈ pre, p.passes store) ∧
        inv.active = true ∧ inv.check store = .error e := by
  intro l
  induction l with
  | nil => left; intro inv h; cases h
  | cons a rest ih =>
    by_cases ha : a.active = true
    · cases hc : a.check store with
      | error e =>
        right
        exact ⟨[], a, rest, e, rfl, fun p hp => absurd hp (List.not_mem_nil p), ha, hc⟩
      | ok rs =>
        rcases ih with hall | ⟨pre, inv, post, e, hl, hpre, hact, herr⟩
        · left
          intro inv hinv
          rcases List.mem_cons.1 hinv with rfl | hinv
          · exact fun _ => ⟨rs, hc⟩
          · exact hall inv hinv
        · right
          refine ⟨a :: pre, inv, post, e, by rw [hl]; rfl, ?_, hact, herr⟩
          intro p hp
          rcases List.mem_cons.1 hp with rfl | hp
          · exact fun _ => ⟨rs, hc⟩
          · exact hpre p hp
    · rcases ih with hall | ⟨pre, inv, post, e, hl, hpre, hact, herr⟩
      · left
        intro inv hinv
        rcases List.mem_cons.1 hinv with rfl | hinv
        · exact fun h => absurd h ha
        · exact hall inv hinv
      · right
        refine ⟨a :: pre, inv, post, e, by rw [hl]; rfl, ?_, hact, herr⟩
        intro p hp
        rcases List.mem_cons.1 hp with rfl | hp
        · exact fun h => absurd h ha
        · exact hpre p hp

/-- C5.  With an error hook that returns normally, `checkInvariants()` returns
`false` exactly when the check of some active invariant raises a domain
violation, every active invariant declared before it having passed.  In that
case the hook is invoked exactly once, with the message
`Failed invariant <name>: <violation>` of that first invariant, the active
invariants before it have their readset cached, and it and every invariant
declared after it are left as they were, so none after it is checked.  When
every active invariant passes, the result is `true` and the hook is not
invoked.  When no check raises anything but domain violations, the result is
`false` exactly when some active invariant's check raises one, and `true`
with no hook call otherwise. -/
theorem checkInvariants_fail_fast (c : Controller V J)
    (hquiet : ∀ msg e, c.errorHandler msg e = none) :
    (c.checkInvariants.2 = .ok false ↔
      ∃ pre inv post e, c.invariants = pre ++ inv :: post ∧
        (∀ p ∈ pre, p.passes c.store) ∧ inv.active = true ∧
        inv.check c.store = .error e ∧ e.isRuntime = true) ∧
    (∀ pre inv post e, c.invariants = pre ++ inv :: post →
      (∀ p ∈ pre, p.passes c.store) → inv.active = true →
      inv.check c.store = .error e → e.isRuntime = true →
      c.checkInvariants.2 = .ok false ∧
      c.checkInvariants.1.hookCalls =
        c.hookCalls ++ [("Failed invariant " ++ inv.name ++ ": " ++ e.text, e)] ∧
      c.checkInvariants.1.invariants =
        pre.map (Invariant.cached c.store) ++ inv :: post) ∧
    ((∀ inv ∈ c.invariants, inv.passes c.store) →
      c.checkInvariants.2 = .ok true ∧ c.checkInvariants.1.hookCalls = c.hookCalls) ∧
    ((∀ inv ∈ c.invariants, inv.active = true →
        ∀ e, inv.check c.store = .error e → e.isRuntime = true) →
      (c.checkInvariants.2 = .ok false ↔
        ∃ inv ∈ c.invariants, inv.active = true ∧
          ∃ e, inv.check c.store = .error e ∧ e.isRuntime = true) ∧
      (c.checkInvariants.2 = .ok false ∨
        (c.checkInvariants.2 = .ok true ∧
          c.checkInvariants.1.hookCalls = c.hookCalls))) := by
  have hfail : ∀ pre inv post e, c.invariants = pre ++ inv :: post →
      (∀ p ∈ pre, p.passes c.store) → inv.active = true →
      inv.check c.store = .error e → e.isRuntime = true →
      c.checkInvariants.2 = .ok false ∧
      c.checkInvariants.1.hookCalls =
        c.hookCalls ++ [("Failed invariant " ++ inv.name ++ ": " ++ e.text, e)] ∧
      c.checkInvariants.1.invariants =
        pre.map (Invariant.cached c.store) ++ inv :: post := by
    intro pre inv post e hl hpre ha he hr
    have := checkLoop_first_failure c.store c.errorHandler inv post e ha he pre
      c.hookCalls hpre
    simp only [hr, if_true, hquiet] at this
    unfold Controller.checkInvariants
    rw [hl, this]
    exact ⟨rfl, rfl, rfl⟩
  have hpass : (∀ inv ∈ c.invariants, inv.passes c.store) →
      c.checkInvariants.2 = .ok true ∧ c.checkInvariants.1.hookCalls = c.hookCalls := by
    intro hall
    have := checkLoop_all_pass c.store c.errorHandler c.invariants c.hookCalls hall
    unfold Controller.checkInvariants
    rw [this]
    exact ⟨rfl, rfl⟩
  have hiff : c.checkInvariants.2 = .ok false ↔
      ∃ pre inv post e, c.invariants = pre ++ inv :: post ∧
        (∀ p ∈ pre, p.passes c.store) ∧ inv.active = true ∧
        inv.check c.store = .error e ∧ e.isRuntime = true := by
    constructor
    · intro hres
      rcases pass_or_first_failure c.store c.invariants with
        hall | ⟨pre, inv, post, e, hl, hpre, ha, he⟩
      · rw [(hpass hall).1] at hres
        cases hres
      · by_cases hr : e.isRuntime = true
        · exact ⟨pre, inv, post, e, hl, hpre, ha, he, hr⟩
        · have := checkLoop_first_failure c.store c.errorHandler inv post e ha he pre
            c.hookCalls hpre
          simp only [hr, Bool.false_eq_true, if_false] at this
          unfold Controller.checkInvariants at hres
          rw [hl, this] at hres
          cases hres
    · rintro ⟨pre, inv, post, e, hl, hpre, ha, he, hr⟩
      exact (hfail pre inv post e hl hpre ha he hr).1
  refine ⟨hiff, hfail, hpass, ?_⟩
  intro hdom
  have hcases : c.checkInvariants.2 = .ok false ∨
      (c.checkInvariants.2 = .ok true ∧ c.checkInvariants.1.hookCalls = c.hookCalls) := by
    rcases pass_or_first_failure c.store c.invariants with
      hall | ⟨pre, inv, post, e, hl, hpre, ha, he⟩
    · exact Or.inr (hpass hall)
    · have hmem : inv ∈ c.invariants := by rw [hl]; simp
      exact Or.inl (hfail pre inv post e hl hpre ha he (hdom inv hmem ha e he)).1
  refine ⟨⟨?_, ?_⟩, hcases⟩
  · intro hres
    obtain ⟨pre, inv, post, e, hl, _, ha, he, hr⟩ := hiff.1 hres
    exact ⟨inv, by rw [hl]; simp, ha, e, he, hr⟩
  · rintro ⟨inv, hmem, ha, e, he, _⟩
    rcases hcases with h | ⟨h, _⟩
    · exact h
    · exfalso
      rcases pass_or_first_failure c.store c.invariants with
        hall | ⟨pre, inv', post, e', hl, hpre, ha', he'⟩
      · obtain ⟨rs, hrs⟩ := hall inv hmem ha
        rw [he] at hrs
        cases hrs
      · have hmem' : inv' ∈ c.invariants := by rw [hl]; simp
        have := (hfail pre inv' post e' hl hpre ha' he' (hdom inv' hmem' ha' e' he')).1
        rw [h] at this
        cases this

/-- Scenario 2 of the specification on the counter model with a quiet hook:
once `x` has reached 10, `checkInvariants()` returns `false` and invokes the
hook with the message naming the invariant `small`. -/
theorem checkInvariants_fail_fast_witness :
    Counter.c10.checkInvariants.2 = .ok false ∧
    Counter.c10.checkInvariants.1.hookCalls = Counter.c10.hookCalls ++
      [("Failed invariant small: x < 10 failed", ⟨true, "x < 10 failed"⟩)] ∧
    Counter.c10.checkInvariants.1.invariants =
      [{ name := "small", active := true, readset := some ["x"], check := Counter.small }] :=
  (checkInvariants_fail_fast Counter.c10 (fun _ _ => rfl)).2.1 []
    { name := "small", active := true, readset := some ["x"], check := Counter.small } []
    ⟨true, "x < 10 failed"⟩ rfl (fun p hp => absurd hp (List.not_mem_nil p)) rfl rfl rfl

end CheckInvariants

/-! ## Invariant violations do not roll back -/

section NoRollback

@[simp]
theorem reportChanges_hookCalls (c : Controller V J) (ch : Option Changeset) :
    (c.reportChanges ch).1.hookCalls = c.hookCalls := rfl

@[simp]
theorem reportChanges_errorHandler (c : Controller V J) (ch : Option Changeset) :
    (c.reportChanges ch).1.errorHandler = c.errorHandler := rfl

/-- What a pass of `checkInvariants` that invokes the hook returns. -/
theorem checkInvariants_hook_invoked (c : Controller V J) (msg : String) (e : Err)
    (h : c.checkInvariants.1.hookCalls = c.hookCalls ++ [(msg, e)]) :
    c.checkInvariants.2 =
      match c.errorHandler msg e with
      | some thrown => .error thrown
      | none => .ok false := by
  rcases pass_or_first_failure c.store c.invariants with
    hall | ⟨pre, inv, post, e', hl, hpre, ha, he⟩
  · have := checkLoop_all_pass c.store c.errorHandler c.invariants c.hookCalls hall
    unfold Controller.checkInvariants at h
    rw [this] at h
    have := congrArg List.length h
    simp at this
  · have hloop := checkLoop_first_failure c.store c.errorHandler inv post e' ha he pre
      c.hookCalls hpre
    unfold Controller.checkInvariants at h ⊢
    rw [hl, hloop] at h
    rw [hl, hloop]
    by_cases hr : e'.isRuntime = true
    · simp only [hr, if_true, List.append_cancel_left_eq, List.cons.injEq, Prod.mk.injEq,
        and_true] at h
      obtain ⟨hmsg, hee⟩ := h
      subst hee
      subst hmsg
      simp only [hr, if_true]
    · simp only [hr, Bool.false_eq_true, if_false] at h
      have := congrArg List.length h
      simp at this

variable [DecidableEq J]

/-- The steps of a committing `tryChangeState` after the push. -/
theorem tryChangeState_commit_steps (c : Controller V J) (mutator : Mutator V)
    (last : Snapshot J) (ret : Option String)
    (hlast : c.execution.getLast? = some last)
    (hmut : (mutator c.store).2 = .ok ret)
    (hdiff : Changesets.compareJSON last.state
      (serializeStore c.module (mutator c.store).1) ≠ []) :
    ∃ c2 : Controller V J, c2.errorHandler = c.errorHandler ∧ c2.hookCalls = c.hookCalls ∧
      c2.invariants = c.invariants ∧ c2.rulesets = c.rulesets ∧ c2.store = (mutator c.store).1 ∧
      c.tryChangeState mutator =
        match (c2.reportChanges (some (Changesets.compareJSON last.state
            (serializeStore c.module (mutator c.store).1)))).2 with
        | .error e =>
          ((c2.reportChanges (some (Changesets.compareJSON last.state
            (serializeStore c.module (mutator c.store).1)))).1, .error e)
        | .ok _ =>
          match (c2.reportChanges (some (Changesets.compareJSON last.state
              (serializeStore c.module (mutator c.store).1)))).1.checkInvariants.2 with
          | .error e =>
            ((c2.reportChanges (some (Changesets.compareJSON last.state
              (serializeStore c.module (mutator c.store).1)))).1.checkInvariants.1, .error e)
          | .ok _ =>
            ((c2.reportChanges (some (Changesets.compareJSON last.state
              (serializeStore c.module (mutator c.store).1)))).1.checkInvariants.1.updateViews,
              .ok (Changesets.compareJSON last.state
                (serializeStore c.module (mutator c.store).1))) := by
  have hne : Changesets.empty (Changesets.compareJSON last.state
      (serializeStore c.module (mutator c.store).1)) = false := by
    simpa [Changesets.empty] using hdiff
  refine ⟨{ c with
      store := (mutator c.store).1
      execution := c.execution ++
        [{ msg := ret.getD "state changed" ++ " (changed " ++
              ", ".intercalate (Changesets.compareJSON last.state
                (serializeStore c.module (mutator c.store).1)) ++ ")"
           state := serializeStore c.module (mutator c.store).1
           index := c.execution.length }] }, rfl, rfl, rfl, rfl, rfl, ?_⟩
  unfold Controller.tryChangeState
  rw [hlast]
  simp only [hmut, Controller.serializeState, hne, Bool.false_eq_true, if_false]

/-- C6.  A state-changing `tryChangeState` during which the error hook is
invoked for an invariant violation stays committed: after the call the pushed
snapshot is the last history entry, the history is one entry longer, and the
variables hold the values the mutator left.  This is so whatever the hook
does: with a hook that returns normally the call returns the changeset, and
with the default hook, which re-raises, the call raises the violation; the
controller state is the same committed state in both cases. -/
theorem tryChangeState_violation_stays_committed (c : Controller V J)
    (mutator : Mutator V) (last : Snapshot J) (ret : Option String) (msg : String) (e : Err)
    (hlast : c.execution.getLast? = some last)
    (hmut : (mutator c.store).2 = .ok ret)
    (hdiff : Changesets.compareJSON last.state
      (serializeStore c.module (mutator c.store).1) ≠ [])
    (hviol : (c.tryChangeState mutator).1.hookCalls = c.hookCalls ++ [(msg, e)]) :
    (∃ entry : Snapshot J,
      (c.tryChangeState mutator).1.execution = c.execution ++ [entry] ∧
      (c.tryChangeState mutator).1.execution.getLast? = some entry ∧
      entry.state = serializeStore c.module (mutator c.store).1) ∧
    (c.tryChangeState mutator).1.execution.length = c.execution.length + 1 ∧
    (c.tryChangeState mutator).1.store = (mutator c.store).1 ∧
    (c.tryChangeState mutator).2 =
      match c.errorHandler msg e with
      | some thrown => .error thrown
      | none => .ok (Changesets.compareJSON last.state
          (serializeStore c.module (mutator c.store).1)) := by
  have he := tryChangeState_commit c mutator last ret hlast hmut hdiff
  refine ⟨⟨_, he, ?_, rfl⟩, ?_, tryChangeState_store c mutator last hlast, ?_⟩
  · rw [he]; simp
  · rw [he]; simp
  · obtain ⟨c2, hh, hc, _, _, _, heq⟩ :=
      tryChangeState_commit_steps c mutator last ret hlast hmut hdiff
    rw [heq] at hviol ⊢
    cases hrep : (c2.reportChanges (some (Changesets.compareJSON last.state
        (serializeStore c.module (mutator c.store).1)))).2 with
    | error thrown =>
      simp only [hrep] at hviol
      have hcalls : c2.hookCalls = c.hookCalls ++ [(msg, e)] := hviol
      rw [hc] at hcalls
      have := congrArg List.length hcalls
      simp at this
    | ok u =>
      simp only [hrep] at hviol ⊢
      cases hchk : (c2.reportChanges (some (Changesets.compareJSON last.state
          (serializeStore c.module (mutator c.store).1)))).1.checkInvariants.2 with
      | error thrown =>
        simp only [hchk] at hviol ⊢
        have hcalls : (c2.reportChanges (some (Changesets.compareJSON last.state
            (serializeStore c.module (mutator c.store).1)))).1.checkInvariants.1.hookCalls =
            (c2.reportChanges (some (Changesets.compareJSON last.state
              (serializeStore c.module (mutator c.store).1)))).1.hookCalls ++ [(msg, e)] := by
          rw [reportChanges_hookCalls, hc]; exact hviol
        have := checkInvariants_hook_invoked _ msg e hcalls
        rw [reportChanges_errorHandler, hh, hchk] at this
        cases hhook : c.errorHandler msg e with
        | none => rw [hhook] at this; cases this
        | some t =>
          rw [hhook] at this
          simp only at this ⊢
          injection this with ht
          rw [ht]
      | ok b =>
        simp only [hchk] at hviol ⊢
        have hcalls : (c2.reportChanges (some (Changesets.compareJSON last.state
            (serializeStore c.module (mutator c.store).1)))).1.checkInvariants.1.hookCalls =
            (c2.reportChanges (some (Changesets.compareJSON last.state
              (serializeStore c.module (mutator c.store).1)))).1.hookCalls ++ [(msg, e)] := by
          rw [reportChanges_hookCalls, hc]; exact hviol
        have := checkInvariants_hook_invoked _ msg e hcalls
        rw [reportChanges_errorHandler, hh, hchk] at this
        cases hhook : c.errorHandler msg e with
        | none => rfl
        | some t => rw [hhook] at this; cases this

/-- On the counter model with the default hook and `x = 9`, firing `inc`
raises the violation of `x < 10`, and the transition to `x = 10` is committed
all the same. -/
theorem tryChangeState_violation_stays_committed_witness :
    (∃ entry : Snapshot Int,
      (Counter.c9.tryChangeState (makeRule "inc" Counter.inc).mutator).1.execution =
        Counter.c9.execution ++ [entry] ∧
      (Counter.c9.tryChangeState (makeRule "inc" Counter.inc).mutator).1.execution.getLast? =
        some entry ∧
      entry.state = [("x", 10)]) ∧
    (Counter.c9.tryChangeState (makeRule "inc" Counter.inc).mutator).1.execution.length =
      10 + 1 ∧
    (Counter.c9.tryChangeState (makeRule "inc" Counter.inc).mutator).1.store =
      ((makeRule "inc" Counter.inc).mutator Counter.c9.store).1 ∧
    (Counter.c9.tryChangeState (makeRule "inc" Counter.inc).mutator).2 =
      .error ⟨true, "x < 10 failed"⟩ :=
  tryChangeState_violation_stays_committed Counter.c9 (makeRule "inc" Counter.inc).mutator
    ⟨"inc (changed x)", [("x", 9)], 9⟩ (some "inc")
    "Failed invariant small: x < 10 failed" ⟨true, "x < 10 failed"⟩ rfl rfl (by decide) rfl

end NoRollback

/-! ## Propagating the sentinel change -/

section Sentinel

/-- After the sentinel change every invariant is active. -/
theorem reportChanges_sentinel_invariants (c : Controller V J) :
    ∀ inv ∈ (c.reportChanges none).1.invariants, inv.active = true := by
  intro inv hinv
  rw [reportChanges_invariants, List.mem_map] at hinv
  obtain ⟨a, _, rfl⟩ := hinv
  unfold reportInvariant affected
  cases ha : a.active <;> simp [ha]

/-- On the sentinel change the ruleset of a simple rule is passed to its
`update`, a no-op, and its rule instances are left as they are. -/
theorem reportRulesets_sentinel_simple (store : Store V) (ruleset : Ruleset V)
    (rest : List (Ruleset V)) (fire : Store V → Effect V)
    (h : ruleset.source.source = .simple fire) :
    reportRulesets none store (ruleset :: rest) =
      (ruleset :: (reportRulesets none store rest).1, (reportRulesets none store rest).2) := by
  have hupd : ruleset.update store = .ok ruleset := by
    unfold Ruleset.update
    rw [h]
  rw [reportRulesets]
  simp only [affected, if_true, hupd]

/-- C7, the code at a failing input.  On the counter model, after `once` has
fired twice it is inactive with readset `x` and `x = 1`.  Propagating the
sentinel change leaves it inactive, and so does `restore` to the initial
snapshot, although in the restored state `x = 0` firing `once` would change
the state. -/
theorem sentinel_leaves_simple_rule_inactive :
    ruleFlags Counter.cOnce =
      [[("inc", true, none)], [("idle", true, none)], [("once", false, some ["x"])]] ∧
    (Counter.cOnce.reportChanges none).2 = .ok () ∧
    ruleFlags (Counter.cOnce.reportChanges none).1 =
      [[("inc", true, none)], [("idle", true, none)], [("once", false, some ["x"])]] ∧
    (Counter.cOnce.restore Counter.snapshot0).2 = .ok () ∧
    (Counter.cOnce.restore Counter.snapshot0).1.serializeState = [("x", 0)] ∧
    ruleFlags (Counter.cOnce.restore Counter.snapshot0).1 =
      [[("inc", true, none)], [("idle", true, none)], [("once", false, some ["x"])]] ∧
    (Rule.fire (Counter.cOnce.restore Counter.snapshot0).1 2 0).2 = .ok ["x"] :=
  ⟨by decide, rfl, by decide, rfl, by decide, by decide, rfl⟩

end Sentinel

/-! ## Propagating a concrete changeset -/

section Concrete

/-- The fresh instances of a regenerated `RuleFor` ruleset. -/
theorem update_ruleFor_fresh (ruleset ruleset' : Ruleset V) (store : Store V)
    (expr : Store V → Except Err (Readset × List (V × Int)))
    (fire : Int → Store V → Effect V)
    (hsrc : ruleset.source.source = .ruleFor expr fire)
    (h : ruleset.update store = .ok ruleset') :
    ∀ rule ∈ ruleset'.rules, rule.active = true ∧ rule.readset = none := by
  unfold Ruleset.update at h
  rw [hsrc] at h
  simp only at h
  split at h
  · cases h
  · injection h with h
    subst h
    intro rule hrule
    simp only [List.mem_map] at hrule
    obtain ⟨vi, _, hvi⟩ := hrule
    subst hvi
    exact ⟨rfl, rfl⟩

theorem reportRulesets_length (changes : Option Changeset) (store : Store V) :
    ∀ l : List (Ruleset V), (reportRulesets changes store l).1.length = l.length := by
  intro l
  induction l with
  | nil => rfl
  | cons rs rest ih =>
    unfold reportRulesets
    split
    · split
      · rfl
      · simp only [List.length_cons, ih]
    · simp only [List.length_cons, ih]

/-- What a ruleset loop that completes does to the ruleset at each position. -/
theorem reportRulesets_getElem? (changes : Option Changeset) (store : Store V) :
    ∀ (l : List (Ruleset V)), (reportRulesets changes store l).2 = none →
      ∀ (k : Nat) (rs : Ruleset V), l[k]? = some rs →
        ∃ rs', (reportRulesets changes store l).1[k]? = some rs' ∧
          (affected changes (some rs.readset) = true → rs.update store = .ok rs') ∧
          (affected changes (some rs.readset) = false →
            rs' = { rs with rules := rs.rules.map (reportRule changes) }) := by
  intro l
  induction l with
  | nil => intro _ k rs h; simp at h
  | cons a rest ih =>
    intro hok k rs hk
    unfold reportRulesets at hok ⊢
    by_cases haff : affected changes (some a.readset) = true
    · simp only [haff, if_true] at hok ⊢
      cases hupd : a.update store with
      | error e => rw [hupd] at hok; simp at hok
      | ok a' =>
        rw [hupd] at hok
        simp only at hok ⊢
        cases k with
        | zero =>
          simp only [List.getElem?_cons_zero, Option.some.injEq] at hk
          subst hk
          refine ⟨a', by simp, fun _ => hupd, fun h => ?_⟩
          rw [haff] at h; cases h
        | succ j =>
          simp only [List.getElem?_cons_succ] at hk ⊢
          exact ih hok j rs hk
    · simp only [haff, Bool.false_eq_true, if_false] at hok ⊢
      cases k with
      | zero =>
        simp only [List.getElem?_cons_zero, Option.some.injEq] at hk
        subst hk
        exact ⟨_, by simp, fun h => absurd h haff, fun _ => rfl⟩
      | succ j =>
        simp only [List.getElem?_cons_succ] at hk ⊢
        exact ih hok j rs hk

theorem reportInvariant_eq (changes : Changeset) (inv : Invariant V) :
    reportInvariant (some changes) inv =
      if inv.active = false ∧ Changesets.affected changes inv.readset = true then
        { inv with active := true, readset := none }
      else inv := by
  unfold reportInvariant affected
  cases ha : inv.active <;> cases hf : Changesets.affected changes inv.readset <;>
    simp [ha, hf]

theorem reportRule_eq (changes : Changeset) (rule : Rule V) :
    reportRule (some changes) rule =
      if rule.active = false ∧ Changesets.affected changes rule.readset = true then
        { rule with active := true, readset := none }
      else rule := by
  unfold reportRule affected
  cases ha : rule.active <;> cases hf : Changesets.affected changes rule.readset <;>
    simp [ha, hf]

/-- C8, as stated, fails.  In the model with the parameterized rule `r`, after
`r(0)` has fired it is inactive with readset `y`, and the ruleset's domain
readset is `n`.  The changeset `n` does not affect the readset `y`, yet after
`reportChanges` of that changeset the instance `r(0)` of the ruleset is active
with readset `null`: the ruleset was regenerated, and its instances replaced. -/
theorem reportChanges_replaces_unaffected_instance :
    ruleFlags Family.c1 = [[("r(0)", false, some ["y"])]] ∧
    Family.c1.rulesets.map (fun ruleset => ruleset.readset) = [["n"]] ∧
    Changesets.affected ["n"] (some ["y"]) = false ∧
    (Family.c1.reportChanges (some ["n"])).2 = .ok () ∧
    ruleFlags (Family.c1.reportChanges (some ["n"])).1 = [[("r(0)", true, none)]] :=
  ⟨by decide, by decide, by decide, rfl, by decide⟩

/-- C8, amended.  A `reportChanges(c)` with a concrete changeset `c` that
completes sets `active = true` and `readset = null` on exactly the inactive
invariants whose cached readset is affected by `c` and leaves every other
invariant as it was.  A ruleset whose own domain readset is affected by `c` is
replaced by what its `update()` yields, so a parameterized ruleset gets fresh
instances, all active with readset `null`, whatever the flags and readsets of
its old instances.  In a ruleset whose domain readset is not affected, exactly
the inactive instances whose cached readset is affected by `c` get
`active = true` and `readset = null`, every other instance is left as it was,
and the ruleset is not regenerated. -/
theorem reportChanges_concrete_changeset (c : Controller V J) (changes : Changeset)
    (hok : (c.reportChanges (some changes)).2 = .ok ()) :
    ((c.reportChanges (some changes)).1.invariants.length = c.invariants.length ∧
      ∀ (j : Nat) (inv : Invariant V), c.invariants[j]? = some inv →
        (c.reportChanges (some changes)).1.invariants[j]? = some
          (if inv.active = false ∧ Changesets.affected changes inv.readset = true then
            { inv with active := true, readset := none }
          else inv)) ∧
    ((c.reportChanges (some changes)).1.rulesets.length = c.rulesets.length ∧
      ∀ (k : Nat) (rs : Ruleset V), c.rulesets[k]? = some rs →
        ∃ rs', (c.reportChanges (some changes)).1.rulesets[k]? = some rs' ∧
          (Changesets.affected changes (some rs.readset) = true →
            rs.update c.store = .ok rs' ∧
            ∀ expr fire, rs.source.source = .ruleFor expr fire →
              ∀ rule ∈ rs'.rules, rule.active = true ∧ rule.readset = none) ∧
          (Changesets.affected changes (some rs.readset) = false →
            rs'.readset = rs.readset ∧ rs'.source = rs.source ∧
            rs'.rules.length = rs.rules.length ∧
            ∀ (i : Nat) (rule : Rule V), rs.rules[i]? = some rule →
              rs'.rules[i]? = some
                (if rule.active = false ∧
                    Changesets.affected changes rule.readset = true then
                  { rule with active := true, readset := none }
                else rule))) := by
  have hloop : (reportRulesets (some changes) c.store c.rulesets).2 = none := by
    unfold Controller.reportChanges at hok
    simp only at hok
    cases h : (reportRulesets (some changes) c.store c.rulesets).2 with
    | none => rfl
    | some e => rw [h] at hok; cases hok
  refine ⟨⟨?_, ?_⟩, ?_, ?_⟩
  · simp
  · intro j inv hj
    rw [reportChanges_invariants, List.getElem?_map, hj, Option.map_some',
      reportInvariant_eq]
  · rw [reportChanges_rulesets]
    exact reportRulesets_length _ _ _
  · intro k rs hk
    obtain ⟨rs', hrs', haff, hnaff⟩ :=
      reportRulesets_getElem? (some changes) c.store c.rulesets hloop k rs hk
    refine ⟨rs', by rw [reportChanges_rulesets]; exact hrs', ?_, ?_⟩
    · intro h
      have hupd := haff h
      exact ⟨hupd, fun expr fire hsrc =>
        update_ruleFor_fresh rs rs' c.store expr fire hsrc hupd⟩
    · intro h
      have := hnaff h
      subst this
      refine ⟨rfl, rfl, by simp, ?_⟩
      intro i rule hi
      simp only [List.getElem?_map, hi, Option.map_some', reportRule_eq]

/-- In the model with the parameterized rule, after `r(0)` has fired, the
changeset `y` leaves the ruleset in place and reactivates `r(0)`. -/
theorem reportChanges_concrete_changeset_witness :
    ruleFlags (Family.c1.reportChanges (some ["y"])).1 = [[("r(0)", true, none)]] ∧
    ((Family.c1.reportChanges (some ["y"])).1.rulesets.length =
        Family.c1.rulesets.length ∧
      ∀ (k : Nat) (rs : Ruleset Int), Family.c1.rulesets[k]? = some rs →
        ∃ rs', (Family.c1.reportChanges (some ["y"])).1.rulesets[k]? = some rs' ∧
          (Changesets.affected ["y"] (some rs.readset) = true →
            rs.update Family.c1.store = .ok rs' ∧
            ∀ expr fire, rs.source.source = .ruleFor expr fire →
              ∀ rule ∈ rs'.rules, rule.active = true ∧ rule.readset = none) ∧
          (Changesets.affected ["y"] (some rs.readset) = false →
            rs'.readset = rs.readset ∧ rs'.source = rs.source ∧
            rs'.rules.length = rs.rules.length ∧
            ∀ (i : Nat) (rule : Rule Int), rs.rules[i]? = some rule →
              rs'.rules[i]? = some
                (if rule.active = false ∧
                    Changesets.affected ["y"] rule.readset = true then
                  { rule with active := true, readset := none }
                else rule))) :=
  ⟨by decide, (reportChanges_concrete_changeset Family.c1 ["y"] rfl).2⟩

end Concrete

/-! ## The last snapshot and the live state -/

section LastSnapshot

theorem lastIsLive_of_eq (c c' : Controller V J) (hm : c'.module = c.module)
    (hs : c'.store = c.store) (he : c'.execution = c.execution) (h : LastIsLive c) :
    LastIsLive c' := by
  obtain ⟨last, hlast, hlive⟩ := h
  refine ⟨last, by rw [he]; exact hlast, ?_⟩
  unfold Controller.serializeState at hlive ⊢
  rw [hm, hs]; exact hlive

variable [DecidableEq J]

theorem tryChangeState_lastIsLive (c : Controller V J) (mutator : Mutator V)
    (ret : Option String) (hmut : (mutator c.store).2 = .ok ret) (h : LastIsLive c) :
    LastIsLive (c.tryChangeState mutator).1 := by
  obtain ⟨last, hlast, hlive⟩ := h
  have hm := tryChangeState_module c mutator
  have hs := tryChangeState_store c mutator last hlast
  by_cases hdiff : Changesets.compareJSON last.state
      (serializeStore c.module (mutator c.store).1) = []
  · refine ⟨last, ?_, ?_⟩
    · rw [tryChangeState_unchanged c mutator last ret hlast hmut hdiff]; exact hlast
    · unfold Controller.serializeState at hlive ⊢
      rw [hm, hs, hlive]
      rw [hlive] at hdiff
      exact (serializeStore_eq_of_compareJSON_nil c.module c.store _ hdiff).symm
  · have he := tryChangeState_commit c mutator last ret hlast hmut hdiff
    refine ⟨{
        msg := (ret.getD "state changed" ++ " (changed " ++
          ", ".intercalate (Changesets.compareJSON last.state
            (serializeStore c.module (mutator c.store).1)) ++ ")")
        state := serializeStore c.module (mutator c.store).1
        index := c.execution.length }, by rw [he]; simp, ?_⟩
    unfold Controller.serializeState
    rw [hm, hs]

/-- The fields of the controller after `rule.fire()` that `tryChangeState`
decides. -/
theorem fire_fields (c : Controller V J) (k i : Nat) (ruleset : Ruleset V) (rule : Rule V)
    (hk : c.rulesets[k]? = some ruleset) (hi : ruleset.rules[i]? = some rule) :
    (Rule.fire c k i).1.execution = (c.tryChangeState rule.mutator).1.execution ∧
    (Rule.fire c k i).1.store = (c.tryChangeState rule.mutator).1.store ∧
    (Rule.fire c k i).1.module = (c.tryChangeState rule.mutator).1.module ∧
    (Rule.fire c k i).1.invariants = (c.tryChangeState rule.mutator).1.invariants := by
  unfold Rule.fire
  simp only [hk, hi]
  split
  · exact ⟨rfl, rfl, rfl, rfl⟩
  · split <;> exact ⟨rfl, rfl, rfl, rfl⟩

theorem fire_missing (c : Controller V J) (k i : Nat)
    (h : ∀ ruleset rule, c.rulesets[k]? = some ruleset → ruleset.rules[i]? ≠ some rule) :
    (Rule.fire c k i).1 = c := by
  unfold Rule.fire
  split
  · rfl
  · rename_i ruleset hk
    split
    · rfl
    · rename_i rule hi
      exact absurd hi (h ruleset rule hk)

/-- The live state after a `wouldChangeState` whose mutator returns, in a
state whose last snapshot is the live state. -/
theorem wouldChangeState_live (c : Controller V J) (mutator : Mutator V)
    (last : Snapshot J) (ret : Option String)
    (hlast : c.execution.getLast? = some last)
    (hlive : last.state = c.serializeState)
    (hrt : ∀ v w, c.module.toJSON (c.module.assignJSON v (some (c.module.toJSON w))) =
      c.module.toJSON w)
    (hmut : (mutator c.store).2 = .ok ret) :
    (c.wouldChangeState mutator).1.serializeState = c.serializeState := by
  unfold Controller.serializeState
  rw [wouldChangeState_module]
  unfold Controller.serializeState at hlive
  by_cases hdiff : Changesets.compareJSON last.state
      (serializeStore c.module (mutator c.store).1) = []
  · have hst : (c.wouldChangeState mutator).1.store = (mutator c.store).1 := by
      unfold Controller.wouldChangeState
      rw [hlast]
      simp only [hmut, Controller.serializeState, hdiff, Changesets.empty,
        List.isEmpty_nil, if_true]
    rw [hst]
    rw [hlive] at hdiff
    exact serializeStore_eq_of_compareJSON_nil c.module c.store _ hdiff
  · have hne : Changesets.empty (Changesets.compareJSON last.state
        (serializeStore c.module (mutator c.store).1)) = false := by
      simpa [Changesets.empty] using hdiff
    have hst : (c.wouldChangeState mutator).1.store =
        restoreStore c.module last.state (mutator c.store).1 := by
      unfold Controller.wouldChangeState
      rw [hlast]
      simp only [hmut, Controller.serializeState, hne, Bool.false_eq_true, if_false]
      split <;> rfl
    rw [hst, hlive]
    exact serializeStore_restoreStore c.module c.store _ hrt

theorem step_lastIsLive (c : Controller V J) (op : Op V J)
    (hrt : ∀ v w, c.module.toJSON (c.module.assignJSON v (some (c.module.toJSON w))) =
      c.module.toJSON w)
    (hok : HistoryOK c) (hop : Op.tracked c op) (h : LastIsLive c) :
    LastIsLive (step c op) := by
  cases op with
  | tryChangeState mutator =>
    obtain ⟨ret, hmut⟩ := hop
    exact tryChangeState_lastIsLive c mutator ret hmut h
  | fire k i =>
    cases hk : c.rulesets[k]? with
    | none =>
      have : (Rule.fire c k i).1 = c :=
        fire_missing c k i (fun ruleset rule hk' => by rw [hk] at hk'; cases hk')
      show LastIsLive (Rule.fire c k i).1
      rw [this]; exact h
    | some ruleset =>
      cases hi : ruleset.rules[i]? with
      | none =>
        have : (Rule.fire c k i).1 = c :=
          fire_missing c k i (fun ruleset' rule hk' => by
            rw [hk] at hk'; injection hk' with hk'; subst hk'; rw [hi]; intro h; cases h)
        show LastIsLive (Rule.fire c k i).1
        rw [this]; exact h
      | some rule =>
        have hret := hop ruleset rule hk hi
        have hmut : (rule.mutator c.store).2 = .ok (some rule.name) := by
          simp only [Rule.mutator, hret]
        obtain ⟨he, hs, hm, _⟩ := fire_fields c k i ruleset rule hk hi
        exact lastIsLive_of_eq _ _ hm hs he
          (tryChangeState_lastIsLive c rule.mutator _ hmut h)
  | wouldChangeState mutator =>
    obtain ⟨ret, hmut⟩ := hop
    obtain ⟨last, hlast, hlive⟩ := h
    refine ⟨last, ?_, ?_⟩
    · show (c.wouldChangeState mutator).1.execution.getLast? = some last
      rw [wouldChangeState_execution]; exact hlast
    · show last.state = (c.wouldChangeState mutator).1.serializeState
      rw [wouldChangeState_live c mutator last ret hlast hlive hrt hmut]; exact hlive
  | restoreState state => exact absurd hop id
  | restore snapshot =>
    have hne : (c.execution.take (snapshot.index + 1)) ≠ [] := by
      cases hc : c.execution with
      | nil => exact absurd hc hok.1
      | cons a l => simp
    obtain ⟨entry, hentry⟩ : ∃ entry,
        (c.execution.take (snapshot.index + 1)).getLast? = some entry := by
      cases hl : (c.execution.take (snapshot.index + 1)).getLast? with
      | none => exact absurd (List.getLast?_eq_none_iff.1 hl) hne
      | some entry => exact ⟨entry, rfl⟩
    obtain ⟨st, hst⟩ := hok.2.2 entry
      (List.mem_of_mem_take (List.mem_of_getLast?_eq_some hentry))
    refine ⟨entry, ?_, ?_⟩
    · show (c.restore snapshot).1.execution.getLast? = some entry
      rw [restore_execution]; exact hentry
    · show entry.state = (c.restore snapshot).1.serializeState
      unfold Controller.serializeState
      rw [restore_store c snapshot entry hentry, restore_module, hst]
      exact (serializeStore_restoreStore c.module st c.store hrt).symm
  | resetToStartingState => exact ⟨_, rfl, rfl⟩
  | checkInvariants => exact lastIsLive_of_eq c _ rfl rfl rfl h
  | reportChanges changes => exact lastIsLive_of_eq c _ rfl rfl rfl h
  | setErrorHandler handler => exact lastIsLive_of_eq c _ rfl rfl rfl h

theorem reachableVia_tracked_lastIsLive (c : Controller V J)
    (hreach : ReachableVia Op.tracked c)
    (hrt : ∀ v w, c.module.toJSON (c.module.assignJSON v (some (c.module.toJSON w))) =
      c.module.toJSON w) :
    LastIsLive c := by
  induction hreach with
  | init m store c hnew =>
    obtain ⟨hm, hs, he⟩ := new_fields m store c hnew
    refine ⟨{ msg := "Initial state", state := serializeStore m store, index := 0 },
      by rw [he]; rfl, ?_⟩
    unfold Controller.serializeState
    rw [hm, hs]
  | step c op hprev hop ih =>
    have hm := step_module c op
    rw [hm] at hrt
    exact step_lastIsLive c op hrt (reachableVia_historyOK _ c hprev) hop (ih hrt)

/-- C9, as stated, fails.  On the counter model, fire `inc` once and call
`restoreState` with the initial snapshot's state: the controller is reached
through public operations, its last history entry holds `x = 1`, and the
serialization of its live variables is `x = 0`. -/
theorem restoreState_breaks_last_snapshot :
    Reachable Counter.c1r ∧
    Counter.c1r.execution.getLast?.map (fun s => s.state) = some [("x", 1)] ∧
    Counter.c1r.serializeState = [("x", 0)] ∧
    SerializedState.equals [("x", 1)] Counter.c1r.serializeState = false :=
  ⟨.step _ (.restoreState [("x", 0)]) (.step _ (.fire 0 0)
      (.init Counter.module Counter.store0 Counter.c0 rfl) trivial) trivial,
    by decide, by decide, by decide⟩

/-- C9, amended.  In every controller state reached after construction through
`tryChangeState`, rule firing and `wouldChangeState` calls whose mutator or
effect returns normally, `restore`, `resetToStartingState`, `checkInvariants`,
`reportChanges` and assignments to the error hook, but no direct call of
`restoreState`, and with variables whose `assignJSON` undoes `toJSON`, the
state stored in the last history entry is the serialization of the live
variables, hence deep-equal to `serializeState()`. -/
theorem last_snapshot_is_live_state (c : Controller V J)
    (hreach : ReachableVia Op.tracked c)
    (hrt : ∀ v w, c.module.toJSON (c.module.assignJSON v (some (c.module.toJSON w))) =
      c.module.toJSON w) :
    ∃ last, c.execution.getLast? = some last ∧ last.state = c.serializeState ∧
      SerializedState.equals last.state c.serializeState = true := by
  obtain ⟨last, hlast, hlive⟩ := reachableVia_tracked_lastIsLive c hreach hrt
  refine ⟨last, hlast, hlive, ?_⟩
  rw [hlive, equals_iff_compareJSON_nil]
  exact compareJSON_self _

/-- On the counter model, after a committed `x := 1` and a `restore` to the
initial snapshot, the last history entry and the live state are both `x = 0`. -/
theorem last_snapshot_is_live_state_witness :
    ∃ last, Counter.cBack.execution.getLast? = some last ∧
      last.state = Counter.cBack.serializeState ∧
      SerializedState.equals last.state Counter.cBack.serializeState = true :=
  last_snapshot_is_live_state Counter.cBack
    (.step _ (.restore Counter.snapshot0) (.step _ (.tryChangeState Counter.setOne)
      (.init Counter.module Counter.store0 Counter.c0 rfl) ⟨none, rfl⟩) trivial)
    (fun _ _ => rfl)

end LastSnapshot

/-! ## Invariants are never deactivated -/

section InvariantFlags

theorem allActive_reportChanges (c : Controller V J) (changes : Option Changeset)
    (h : AllActive c.invariants) : AllActive (c.reportChanges changes).1.invariants := by
  intro inv hinv
  rw [reportChanges_invariants, List.mem_map] at hinv
  obtain ⟨a, ha, rfl⟩ := hinv
  unfold reportInvariant
  split
  · rfl
  · exact h a ha

theorem allActive_checkLoop (store : Store V) (handler : String → Err → Option Err) :
    ∀ (l : List (Invariant V)) (calls : List (String × Err)),
      AllActive l → AllActive (checkLoop store handler l calls).1 := by
  intro l
  induction l with
  | nil => intro calls _ inv hinv; cases hinv
  | cons a rest ih =>
    intro calls h
    have ha : a.active = true := h a (List.mem_cons_self _ _)
    have hrest : AllActive rest := fun p hp => h p (List.mem_cons_of_mem _ hp)
    unfold checkLoop
    simp only [ha, if_true]
    split
    · intro inv hinv
      rcases List.mem_cons.1 hinv with rfl | hinv
      · rfl
      · exact ih calls hrest inv hinv
    · split
      · split <;> exact h
      · exact h

theorem allActive_checkInvariants (c : Controller V J) (h : AllActive c.invariants) :
    AllActive c.checkInvariants.1.invariants :=
  allActive_checkLoop c.store c.errorHandler c.invariants c.hookCalls h

theorem allActive_restoreState (c : Controller V J) (state : SerializedState J)
    (h : AllActive c.invariants) : AllActive (c.restoreState state).1.invariants :=
  allActive_reportChanges _ none h

theorem allActive_restore (c : Controller V J) (snapshot : Snapshot J)
    (h : AllActive c.invariants) : AllActive (c.restore snapshot).1.invariants := by
  unfold Controller.restore
  dsimp only
  split
  · exact h
  · split
    · exact allActive_restoreState _ _ h
    · split
      · exact allActive_reportChanges _ _ (allActive_restoreState _ _ h)
      · split
        · exact allActive_checkInvariants _
            (allActive_reportChanges _ _ (allActive_restoreState _ _ h))
        · exact allActive_checkInvariants _
            (allActive_reportChanges _ _ (allActive_restoreState _ _ h))

theorem allActive_new (m : Module V J) (store : Store V) (c : Controller V J)
    (h : Controller.new m store = .ok c) : AllActive c.invariants := by
  unfold Controller.new at h
  dsimp only at h
  split at h
  · cases h
  · split at h
    · cases h
    · injection h with h
      subst h
      apply allActive_checkLoop
      intro inv hinv
      rw [List.mem_map] at hinv
      obtain ⟨d, _, rfl⟩ := hinv
      rfl

variable [DecidableEq J]

theorem allActive_tryChangeState (c : Controller V J) (mutator : Mutator V)
    (h : AllActive c.invariants) : AllActive (c.tryChangeState mutator).1.invariants := by
  unfold Controller.tryChangeState
  split
  · exact h
  · dsimp only
    split
    · exact h
    · split
      · exact h
      · split
        · exact allActive_reportChanges _ _ h
        · split
          · exact allActive_checkInvariants _ (allActive_reportChanges _ _ h)
          · exact allActive_checkInvariants _ (allActive_reportChanges _ _ h)

theorem allActive_fire (c : Controller V J) (k i : Nat)
    (h : AllActive c.invariants) : AllActive (Rule.fire c k i).1.invariants := by
  cases hk : c.rulesets[k]? with
  | none =>
    rw [fire_missing c k i (fun ruleset rule hk' => by rw [hk] at hk'; cases hk')]
    exact h
  | some ruleset =>
    cases hi : ruleset.rules[i]? with
    | none =>
      rw [fire_missing c k i (fun ruleset' rule hk' => by
        rw [hk] at hk'; injection hk' with hk'; subst hk'; rw [hi]; intro h; cases h)]
      exact h
    | some rule =>
      rw [(fire_fields c k i ruleset rule hk hi).2.2.2]
      exact allActive_tryChangeState c _ h

theorem allActive_wouldChangeState (c : Controller V J) (mutator : Mutator V)
    (h : AllActive c.invariants) : AllActive (c.wouldChangeState mutator).1.invariants := by
  unfold Controller.wouldChangeState
  split
  · exact h
  · dsimp only
    split
    · exact h
    · split
      · exact h
      · split
        · exact allActive_restoreState _ _ h
        · exact allActive_restoreState _ _ h

theorem allActive_step (c : Controller V J) (op : Op V J) (h : AllActive c.invariants) :
    AllActive (step c op).invariants := by
  cases op with
  | tryChangeState mutator => exact allActive_tryChangeState c mutator h
  | fire k i => exact allActive_fire c k i h
  | wouldChangeState mutator => exact allActive_wouldChangeState c mutator h
  | restoreState state => exact allActive_restoreState c state h
  | restore snapshot => exact allActive_restore c snapshot h
  | resetToStartingState => exact h
  | checkInvariants => exact allActive_checkInvariants c h
  | reportChanges changes => exact allActive_reportChanges c changes h
  | setErrorHandler handler => exact h

/-- C10, as stated, fails.  The freshly constructed counter controller holds
the invariant `small` with `active = true` and the readset `x` cached by the
initial check: the readset is defined although the invariant is active. -/
theorem active_invariant_has_readset :
    Reachable Counter.c0 ∧
    Counter.c0.invariants.map (fun inv => (inv.name, inv.active, inv.readset)) =
      [("small", true, some ["x"])] :=
  ⟨.init Counter.module Counter.store0 Counter.c0 rfl, by decide⟩

/-- C10, amended.  In every controller state reachable through construction
and the public operations, every invariant has `active = true`: nothing in the
controller deactivates an invariant, and a passing check caches the readset
while the invariant stays active.  So an inactive invariant with a `null`
readset never occurs, while an active invariant with a defined readset
does. -/
theorem invariants_stay_active (c : Controller V J) (hreach : Reachable c) :
    ∀ inv ∈ c.invariants, inv.active = true ∧ (inv.active = false → inv.readset ≠ none) := by
  have hall : AllActive c.invariants := by
    induction hreach with
    | init m store c hnew => exact allActive_new m store c hnew
    | step c op _ _ ih => exact allActive_step c op ih
  intro inv hinv
  refine ⟨hall inv hinv, fun h => ?_⟩
  rw [hall inv hinv] at h
  cases h

/-- On the counter model after three firings of `inc`, the invariant `small`
is active with its readset cached. -/
theorem invariants_stay_active_witness :
    (∀ inv ∈ Counter.c3.invariants,
      inv.active = true ∧ (inv.active = false → inv.readset ≠ none)) ∧
    Counter.c3.invariants.map (fun inv => (inv.name, inv.active, inv.readset)) =
      [("small", true, some ["x"])] :=
  ⟨invariants_stay_active Counter.c3
    (.step _ (.fire 0 0) (.step _ (.fire 0 0) (.step _ (.fire 0 0)
      (.init Counter.module Counter.store0 Counter.c0 rfl) trivial) trivial) trivial),
    by decide⟩

end InvariantFlags

/-! ## Rule instances: readset and active flag -/

section RuleFlags

theorem makeRule_ok (name : String) (fire : Store V → Effect V) :
    ((makeRule name fire).readset ≠ none ↔ (makeRule name fire).active = false) := by
  simp [makeRule]

theorem reportRule_ok (changes : Option Changeset) (rule : Rule V)
    (h : rule.readset ≠ none ↔ rule.active = false) :
    ((reportRule changes rule).readset ≠ none ↔ (reportRule changes rule).active = false) := by
  unfold reportRule
  split
  · simp
  · exact h

theorem update_ok (ruleset ruleset' : Ruleset V) (store : Store V)
    (hupd : ruleset.update store = .ok ruleset')
    (h : ∀ rule ∈ ruleset.rules, (rule.readset ≠ none ↔ rule.active = false)) :
    ∀ rule ∈ ruleset'.rules, (rule.readset ≠ none ↔ rule.active = false) := by
  unfold Ruleset.update at hupd
  split at hupd
  · injection hupd with hupd
    subst hupd
    exact h
  · split at hupd
    · cases hupd
    · injection hupd with hupd
      subst hupd
      intro rule hrule
      simp only [List.mem_map] at hrule
      obtain ⟨vi, _, rfl⟩ := hrule
      exact makeRule_ok _ _

theorem rulesOK_cons (ruleset : Ruleset V) (rest : List (Ruleset V))
    (h1 : ∀ rule ∈ ruleset.rules, (rule.readset ≠ none ↔ rule.active = false))
    (h2 : RulesOK rest) : RulesOK (ruleset :: rest) := by
  intro rs hrs
  rcases List.mem_cons.1 hrs with rfl | hrs
  · exact h1
  · exact h2 rs hrs

theorem reportRulesets_ok (changes : Option Changeset) (store : Store V) :
    ∀ l : List (Ruleset V), RulesOK l → RulesOK (reportRulesets changes store l).1 := by
  intro l
  induction l with
  | nil => intro h; exact h
  | cons a rest ih =>
    intro h
    have ha := h a (List.mem_cons_self _ _)
    have hrest : RulesOK rest := fun rs hrs => h rs (List.mem_cons_of_mem _ hrs)
    unfold reportRulesets
    split
    · cases hupd : a.update store with
      | error e => exact h
      | ok a' => exact rulesOK_cons _ _ (update_ok a a' store hupd ha) (ih hrest)
    · refine rulesOK_cons _ _ ?_ (ih hrest)
      intro rule hrule
      simp only [List.mem_map] at hrule
      obtain ⟨r, hr, rfl⟩ := hrule
      exact reportRule_ok changes r (ha r hr)

theorem makeRulesets_ok (store : Store V) :
    ∀ (rules : List (RuleDecl V)) (rulesets : List (Ruleset V)),
      makeRulesets store rules = .ok rulesets → RulesOK rulesets := by
  intro rules
  induction rules with
  | nil =>
    intro rulesets h
    unfold makeRulesets at h
    injection h with h
    subst h
    intro rs hrs
    cases hrs
  | cons d rest ih =>
    intro rulesets h
    unfold makeRulesets at h
    split at h
    · cases h
    · rename_i ruleset hmk
      split at h
      · cases h
      · rename_i rulesets' hrest
        injection h with h
        subst h
        refine rulesOK_cons _ _ ?_ (ih rulesets' hrest)
        unfold makeRuleset at hmk
        split at hmk
        · exact update_ok _ ruleset store hmk (fun rule hrule => by cases hrule)
        · injection hmk with hmk
          subst hmk
          intro rule hrule
          simp only [List.mem_singleton] at hrule
          subst hrule
          exact makeRule_ok _ _

theorem rulesOK_reportChanges (c : Controller V J) (changes : Option Changeset)
    (h : RulesOK c.rulesets) : RulesOK (c.reportChanges changes).1.rulesets := by
  rw [reportChanges_rulesets]
  exact reportRulesets_ok changes c.store c.rulesets h

theorem rulesOK_restoreState (c : Controller V J) (state : SerializedState J)
    (h : RulesOK c.rulesets) : RulesOK (c.restoreState state).1.rulesets :=
  reportRulesets_ok none _ c.rulesets h

theorem rulesOK_restore (c : Controller V J) (snapshot : Snapshot J)
    (h : RulesOK c.rulesets) : RulesOK (c.restore snapshot).1.rulesets := by
  unfold Controller.restore
  dsimp only
  split
  · exact h
  · split
    · exact rulesOK_restoreState _ _ h
    · split
      · exact rulesOK_reportChanges _ _ (rulesOK_restoreState _ _ h)
      · split
        · exact rulesOK_reportChanges _ _ (rulesOK_restoreState _ _ h)
        · exact rulesOK_reportChanges _ _ (rulesOK_restoreState _ _ h)

theorem rulesOK_new (m : Module V J) (store : Store V) (c : Controller V J)
    (h : Controller.new m store = .ok c) : RulesOK c.rulesets := by
  unfold Controller.new at h
  dsimp only at h
  split at h
  · cases h
  · split at h
    · cases h
    · rename_i rulesets hmk
      injection h with h
      subst h
      exact makeRulesets_ok store m.rules rulesets hmk

variable [DecidableEq J]

theorem rulesOK_tryChangeState (c : Controller V J) (mutator : Mutator V)
    (h : RulesOK c.rulesets) : RulesOK (c.tryChangeState mutator).1.rulesets := by
  unfold Controller.tryChangeState
  split
  · exact h
  · dsimp only
    split
    · exact h
    · split
      · exact h
      · split
        · exact rulesOK_reportChanges _ _ h
        · split
          · exact rulesOK_reportChanges _ _ h
          · exact rulesOK_reportChanges _ _ h

theorem rulesOK_wouldChangeState (c : Controller V J) (mutator : Mutator V)
    (h : RulesOK c.rulesets) : RulesOK (c.wouldChangeState mutator).1.rulesets := by
  unfold Controller.wouldChangeState
  split
  · exact h
  · dsimp only
    split
    · exact h
    · split
      · exact h
      · split
        · exact rulesOK_restoreState _ _ h
        · exact rulesOK_restoreState _ _ h

theorem rulesOK_fire (c : Controller V J) (k i : Nat)
    (h : RulesOK c.rulesets) : RulesOK (Rule.fire c k i).1.rulesets := by
  unfold Rule.fire
  split
  · exact h
  · rename_i ruleset hk
    split
    · exact h
    · rename_i rule hi
      have htry := rulesOK_tryChangeState c rule.mutator h
      dsimp only
      split
      · exact htry
      · split
        · intro rs hrs
          rcases List.mem_or_eq_of_mem_set hrs with hrs | rfl
          · exact htry rs hrs
          · intro r hr
            rcases List.mem_or_eq_of_mem_set hr with hr | rfl
            · exact h ruleset (List.getElem?_mem hk) r hr
            · simp
        · exact htry

theorem rulesOK_step (c : Controller V J) (op : Op V J) (h : RulesOK c.rulesets) :
    RulesOK (step c op).rulesets := by
  cases op with
  | tryChangeState mutator => exact rulesOK_tryChangeState c mutator h
  | fire k i => exact rulesOK_fire c k i h
  | wouldChangeState mutator => exact rulesOK_wouldChangeState c mutator h
  | restoreState state => exact rulesOK_restoreState c state h
  | restore snapshot => exact rulesOK_restore c snapshot h
  | resetToStartingState => exact h
  | checkInvariants => exact h
  | reportChanges changes => exact rulesOK_reportChanges c changes h
  | setErrorHandler handler => exact h

/-- C11.  In every controller state reached from construction through the
public operations, among them rule firing, `reportChanges` and the ruleset
regeneration it triggers, each rule instance of each ruleset has its cached
readset defined exactly when its active flag is false.  A rule instance is
created by `makeRule` active with readset `null`. -/
theorem rule_readset_iff_inactive (c : Controller V J) (hreach : Reachable c) :
    (∀ ruleset ∈ c.rulesets, ∀ rule ∈ ruleset.rules,
      (rule.readset ≠ none ↔ rule.active = false)) ∧
    (∀ (name : String) (fire : Store V → Effect V),
      (makeRule name fire).active = true ∧ (makeRule name fire).readset = none) := by
  refine ⟨?_, fun _ _ => ⟨rfl, rfl⟩⟩
  induction hreach with
  | init m store c hnew => exact rulesOK_new m store c hnew
  | step c op _ _ ih => exact rulesOK_step c op ih

/-- On the counter model after `once` has fired twice, `inc` and `idle` are
active with readset `null` and `once` is inactive with readset `x`. -/
theorem rule_readset_iff_inactive_witness :
    ((∀ ruleset ∈ Counter.cOnce.rulesets, ∀ rule ∈ ruleset.rules,
      (rule.readset ≠ none ↔ rule.active = false)) ∧
    (∀ (name : String) (fire : Store Int → Effect Int),
      (makeRule name fire).active = true ∧ (makeRule name fire).readset = none)) ∧
    ruleFlags Counter.cOnce =
      [[("inc", true, none)], [("idle", true, none)], [("once", false, some ["x"])]] :=
  ⟨rule_readset_iff_inactive Counter.cOnce
    (.step _ (.fire 2 0) (.step _ (.fire 2 0)
      (.init Counter.module Counter.store0 Counter.c0 rfl) trivial) trivial),
    by decide⟩

end RuleFlags

/-! ## Regenerating a parameterized ruleset -/

section Regenerate

theorem roundToDouble_exact (n : Int) (h : n.natAbs < 2 ^ 53) : roundToDouble n = n := by
  have hshift : significandShift n.natAbs n.natAbs 0 = 0 := by
    cases hm : n.natAbs with
    | zero => rfl
    | succ m =>
      rw [hm] at h
      unfold significandShift
      simp only [pow_zero, Nat.div_one]
      rw [if_pos h]
  unfold roundToDouble
  simp only [hshift, pow_zero, Nat.div_one, Nat.mod_one, Nat.mul_zero, Nat.mul_one]
  have hcond : ¬ (1 < 0 ∨ (0 = 1 ∧ n.natAbs % 2 = 1)) := by omega
  rw [if_neg hcond]
  split <;> omega

/-- Within the safe integers the sum of JavaScript numbers is the exact sum. -/
theorem numberAdd_exact (a b : Int) (hlo : -(2 ^ 53 : Int) < a + b)
    (hhi : a + b < (2 ^ 53 : Int)) : numberAdd a b = a + b := by
  unfold numberAdd
  apply roundToDouble_exact
  omega

theorem forEach_getElem? {E : Type} (s : OrderedSetValue E) (k : Nat) :
    s.forEach[k]? =
      s.usedItems[k]?.map (fun v => (v, numberAdd s.type.indextype.low (k : Int))) := by
  unfold OrderedSetValue.forEach
  rw [List.getElem?_map, List.getElem?_enum]
  cases s.usedItems[k]? <;> rfl

theorem forEach_length {E : Type} (s : OrderedSetValue E) :
    s.forEach.length = s.usedItems.length := by
  unfold OrderedSetValue.forEach
  simp

/-- C12, as stated, fails.  A domain expression that evaluates to the ordered
set over the index range `1..3` holding `10` and `20` reports its elements at
the indices 1 and 2, and `update()` names the two instances `r(1)` and `r(2)`,
not `r(0)` and `r(1)`. -/
theorem update_names_follow_collection_index :
    Indexed.slots.forEach = [(10, 1), (20, 2)] ∧
    updatedNames Indexed.ruleset Counter.store0 = some ["r(1)", "r(2)"] :=
  ⟨by decide, by decide⟩

/-- C12, amended.  For a parameterized rule named `r` whose domain expression
evaluates to a collection of `n` elements, `update()` replaces the ruleset's
instance list with exactly `n` fresh rule instances in enumeration order, the
instance for the element at enumeration position `k` firing the rule at the
index `i` that the collection's `forEach` reports with that element and being
named `r(i)`, for an index of magnitude below `10 ^ 21`, which a template
string prints in plain decimal.  The name never depends on the element's
value.  For an ordered set the reported index is the JavaScript sum `low + k`;
when `low` and `low + n` lie strictly between `-2 ^ 53` and `2 ^ 53` that sum
is exact and the names are `r(low)`, ..., `r(low + n - 1)`, which are `r(0)`,
..., `r(n - 1)` only when `low = 0`.  The ruleset's readset becomes the
readset recorded by the domain evaluation. -/
theorem update_names_by_reported_index (ruleset : Ruleset V) (store : Store V)
    (expr : Store V → Except Err (Readset × List (V × Int)))
    (fire : Int → Store V → Effect V) (readset : Readset) (coll : List (V × Int))
    (hsrc : ruleset.source.source = .ruleFor expr fire)
    (heval : expr store = .ok (readset, coll)) :
    ∃ ruleset', ruleset.update store = .ok ruleset' ∧
      ruleset'.readset = readset ∧ ruleset'.source = ruleset.source ∧
      ruleset'.rules.length = coll.length ∧
      (∀ (k : Nat) (vi : V × Int), coll[k]? = some vi →
        ∃ rule, ruleset'.rules[k]? = some rule ∧
          rule._fire = fire vi.2 ∧ rule.active = true ∧ rule.readset = none ∧
          (vi.2.natAbs < 10 ^ 21 →
            rule.name = ruleset.source.name ++ "(" ++ toString vi.2 ++ ")")) ∧
      (∀ s : OrderedSetValue V, coll = s.forEach →
        ruleset'.rules.length = s.usedItems.length ∧
        ∀ (k : Nat) (v : V), s.usedItems[k]? = some v →
          coll[k]? = some (v, numberAdd s.type.indextype.low (k : Int)) ∧
          (-(2 ^ 53 : Int) < s.type.indextype.low →
            s.type.indextype.low + (s.usedItems.length : Int) < (2 ^ 53 : Int) →
            ∃ rule, ruleset'.rules[k]? = some rule ∧
              rule.name = ruleset.source.name ++ "(" ++
                toString (s.type.indextype.low + (k : Int)) ++ ")")) := by
  have hupd : ruleset.update store = .ok
      { ruleset with
        readset := readset
        rules := coll.map (fun vi =>
          makeRule (ruleset.source.name ++ "(" ++ toString vi.2 ++ ")") (fire vi.2)) } := by
    unfold Ruleset.update
    rw [hsrc]
    simp only [heval]
  have hk : ∀ (k : Nat) (vi : V × Int), coll[k]? = some vi →
      ∃ rule, (coll.map (fun vi =>
          makeRule (ruleset.source.name ++ "(" ++ toString vi.2 ++ ")") (fire vi.2)))[k]? =
            some rule ∧
        rule._fire = fire vi.2 ∧ rule.active = true ∧ rule.readset = none ∧
        rule.name = ruleset.source.name ++ "(" ++ toString vi.2 ++ ")" := by
    intro k vi hvi
    refine ⟨makeRule (ruleset.source.name ++ "(" ++ toString vi.2 ++ ")") (fire vi.2),
      ?_, rfl, rfl, rfl, rfl⟩
    rw [List.getElem?_map, hvi]
    rfl
  refine ⟨_, hupd, rfl, rfl, by simp, ?_, ?_⟩
  · intro k vi hvi
    obtain ⟨rule, hrule, hfire, hact, hrs, hname⟩ := hk k vi hvi
    exact ⟨rule, hrule, hfire, hact, hrs, fun _ => hname⟩
  · intro s hs
    refine ⟨by simp [hs, forEach_length], ?_⟩
    intro k v hv
    have hcoll : coll[k]? = some (v, numberAdd s.type.indextype.low (k : Int)) := by
      rw [hs, forEach_getElem?, hv]
      rfl
    refine ⟨hcoll, ?_⟩
    intro hlo hhi
    have hklt : k < s.usedItems.length := by
      rcases List.getElem?_eq_some_iff.1 hv with ⟨h, _⟩; exact h
    obtain ⟨rule, hrule, _, _, _, hname⟩ := hk k _ hcoll
    refine ⟨rule, hrule, ?_⟩
    rw [hname, numberAdd_exact _ _ (by omega) (by omega)]

/-- In the model with the parameterized rule `r` over the collection
`0, ..., n - 1` with `n = 1`, the constructor's `update()` yields the one
instance `r(0)`; over the ordered set with index range `1..3` holding two
elements, `update()` yields the readset `s` and the instances `r(1)` and
`r(2)`. -/
theorem update_names_by_reported_index_witness :
    ruleFlags Family.c0 = [[("r(0)", true, none)]] ∧
    updatedNames Indexed.ruleset Counter.store0 = some ["r(1)", "r(2)"] ∧
    ∃ ruleset', Indexed.ruleset.update Counter.store0 = .ok ruleset' ∧
      ruleset'.readset = ["s"] ∧ ruleset'.source = Indexed.ruleset.source ∧
      ruleset'.rules.length = Indexed.slots.forEach.length ∧
      (∀ (k : Nat) (vi : Int × Int), Indexed.slots.forEach[k]? = some vi →
        ∃ rule, ruleset'.rules[k]? = some rule ∧
          rule._fire = Family.look vi.2 ∧ rule.active = true ∧ rule.readset = none ∧
          (vi.2.natAbs < 10 ^ 21 →
            rule.name = Indexed.ruleset.source.name ++ "(" ++ toString vi.2 ++ ")")) ∧
      (∀ s : OrderedSetValue Int, Indexed.slots.forEach = s.forEach →
        ruleset'.rules.length = s.usedItems.length ∧
        ∀ (k : Nat) (v : Int), s.usedItems[k]? = some v →
          Indexed.slots.forEach[k]? =
            some (v, numberAdd s.type.indextype.low (k : Int)) ∧
          (-(2 ^ 53 : Int) < s.type.indextype.low →
            s.type.indextype.low + (s.usedItems.length : Int) < (2 ^ 53 : Int) →
            ∃ rule, ruleset'.rules[k]? = some rule ∧
              rule.name = Indexed.ruleset.source.name ++ "(" ++
                toString (s.type.indextype.low + (k : Int)) ++ ")")) :=
  ⟨by decide, by decide,
    update_names_by_reported_index Indexed.ruleset Counter.store0 Indexed.domain
      Family.look ["s"] Indexed.slots.forEach rfl rfl⟩

/-- Past the safe integers the reported index is the rounded sum: over the
index range starting at `2 ^ 53` the three elements of a full set are reported
at `2 ^ 53`, `2 ^ 53` and `2 ^ 53 + 2`, so two instances share the name
`r(9007199254740992)`. -/
theorem update_names_past_safe_integers :
    Indexed.farSlots.forEach =
      [(10, 9007199254740992), (20, 9007199254740992), (30, 9007199254740994)] ∧
    updatedNames Indexed.farRuleset Counter.store0 =
      some ["r(9007199254740992)", "r(9007199254740992)", "r(9007199254740994)"] :=
  ⟨by decide, by decide⟩

end Regenerate

/-! ## Ordered sets: `pop` -/

section OrderedSetPop

variable {E : Type}

/-- C13, as stated, fails.  After `push(1)`, `push(2)`, `push(3)` on the set
over `0..2`, `pop()` returns 1, the first element pushed, and leaves 2 and 3;
the next two pops return 2 and then 3. -/
theorem pop_returns_oldest :
    Letters.abc.usedItems = [1, 2, 3] ∧
    Letters.abc.pop.2 = .ok 1 ∧
    Letters.abc.pop.1.usedItems = [2, 3] ∧
    Letters.abc.pop.1.pop.2 = .ok 2 ∧
    Letters.abc.pop.1.pop.1.pop.2 = .ok 3 :=
  ⟨by decide, rfl, by decide, rfl, rfl⟩

/-- The method `pop` returns the head of the used items and leaves the rest. -/
theorem pop_head (s : OrderedSetValue E)
    (hused : 1 ≤ s.used) (hlen : s.used ≤ s.items.length) :
    ∃ first, s.pop.2 = .ok first ∧
      s.index s.type.indextype.low = .ok first ∧
      s.usedItems = first :: s.pop.1.usedItems ∧
      s.pop.1.used = s.used - 1 ∧
      s.pop.1.items.length = s.items.length ∧
      s.pop.1.type = s.type := by
  have hne : s.used ≠ 0 := by omega
  cases hitems : s.items with
  | nil => rw [hitems] at hlen; simp at hlen; omega
  | cons x rest =>
    rw [hitems] at hlen
    simp only [List.length_cons] at hlen
    refine ⟨x, ?_, ?_, ?_, ?_, ?_, ?_⟩
    · unfold OrderedSetValue.pop
      simp [hne, hitems]
    · unfold OrderedSetValue.index
      have h1 : ¬ (s.type.indextype.low < s.type.indextype.low ∨
          s.type.indextype.low > s.type.indextype.low + (s.used : Int)) := by omega
      simp [h1, hitems]
    · unfold OrderedSetValue.pop OrderedSetValue.usedItems
      simp only [hne, if_false, hitems, List.cons_append, List.tail_cons]
      obtain ⟨n, hn⟩ : ∃ n, s.used = n + 1 := ⟨s.used - 1, by omega⟩
      rw [hn]
      simp only [List.take_succ_cons, Nat.add_sub_cancel, List.cons.injEq, true_and]
      rw [List.take_append_of_le_length (by omega)]
    · unfold OrderedSetValue.pop
      simp [hne]
    · unfold OrderedSetValue.pop
      simp [hne, hitems]
    · unfold OrderedSetValue.pop
      simp [hne]

end OrderedSetPop

/-! ## Ordered sets: `remove`, `push` and their failures -/

section OrderedSetPush

variable {E : Type}

theorem mem_usedItems_push (s : OrderedSetValue E) (v : E) :
    v ∈ ({ s with items := OrderedSetValue.assignAt s.items s.used v,
                  used := s.used + 1 } : OrderedSetValue E).usedItems := by
  unfold OrderedSetValue.usedItems OrderedSetValue.assignAt
  simp only
  by_cases h : s.used < s.items.length
  · rw [if_pos h]
    have hget : (List.take (s.used + 1) (s.items.set s.used v))[s.used]? = some v := by
      rw [List.getElem?_take, if_pos (Nat.lt_succ_self _), List.getElem?_set_self h]
    exact List.getElem?_mem hget
  · rw [if_neg h]
    have hle : (s.items ++ [v]).length ≤ s.used + 1 := by
      simp only [List.length_append, List.length_singleton]; omega
    rw [List.take_of_length_le hle]
    simp

variable [DecidableEq E]

/-- The method `remove` never changes `used`. -/
theorem remove_used (s : OrderedSetValue E) (v : E) : (s.remove v).1.used = s.used := by
  unfold OrderedSetValue.remove
  split <;> rfl

theorem contains_iff (s : OrderedSetValue E) (v : E) :
    s.contains v = true ↔ v ∈ s.usedItems := by
  unfold OrderedSetValue.contains OrderedSetValue.forEach
  simp only [List.any_eq_true, List.mem_map, decide_eq_true_eq]
  constructor
  · rintro ⟨xi, ⟨iv, hiv, rfl⟩, hx⟩
    simp only at hx
    subst hx
    obtain ⟨i, v⟩ := iv
    obtain ⟨hi, hv⟩ := List.mem_enum hiv
    rw [hv]
    exact List.getElem_mem hi
  · intro hv
    obtain ⟨k, hk⟩ := List.getElem?_of_mem hv
    refine ⟨(v, numberAdd s.type.indextype.low (k : Int)), ⟨(k, v), ?_, rfl⟩, rfl⟩
    have : s.usedItems.enum[k]? = some (k, v) := by
      rw [List.getElem?_enum, hk]; rfl
    exact List.getElem?_mem this

/-- Removing a value that equals no used item returns `false` and leaves the
set as it was. -/
theorem remove_absent (s : OrderedSetValue E) (v : E) (h : v ∉ s.usedItems) :
    s.remove v = (s, false) := by
  unfold OrderedSetValue.remove
  have : s.usedItems.findIdx? (fun item => decide (item = v)) = none := by
    rw [List.findIdx?_eq_none_iff]
    intro x hx
    simp only [decide_eq_false_iff_not]
    intro hxv
    exact h (hxv ▸ hx)
  rw [this]

/-- C14, the code at a failing input.  On the set holding 1, 2, 3 over `0..2`,
`remove(2)` returns `true` and moves 3 forward, but `used` stays 3, so the
used items afterwards are 1, 3 and the backfilled default 0, not 1, 3 with
`used = 2`. -/
theorem remove_keeps_used :
    Letters.abc.usedItems = [1, 2, 3] ∧
    Letters.abc.used = 3 ∧
    (Letters.abc.remove 2).2 = true ∧
    (Letters.abc.remove 2).1.items = [1, 3, 0] ∧
    (Letters.abc.remove 2).1.used = 3 ∧
    (Letters.abc.remove 2).1.usedItems = [1, 3, 0] :=
  ⟨by decide, by decide, by decide, by decide, by decide, by decide⟩

/-- C15.  A `push(v)` throws exactly when the set is full, that is
`used = high - low + 1`, and `v` is not contained; what it throws is a Bounds
error, and the set is left as it was.  A `pop()` throws exactly when
`used = 0`; what it throws is a Bounds error, and the set is left as it
was. -/
theorem push_pop_bounds (s : OrderedSetValue E) (v : E) :
    ((s.push v).2 = .error .Bounds ↔
      ((s.used : Int) = s.type.indextype.high - s.type.indextype.low + 1 ∧
        s.contains v = false)) ∧
    (∀ e, (s.push v).2 = .error e → e = .Bounds ∧ (s.push v).1 = s) ∧
    (s.pop.2 = .error .Bounds ↔ s.used = 0) ∧
    (∀ e, s.pop.2 = .error e → e = .Bounds ∧ s.pop.1 = s) := by
  refine ⟨?_, ?_, ?_, ?_⟩
  · unfold OrderedSetValue.push OrderedSetValue.full
    cases hc : s.contains v
    · by_cases hf : (s.used : Int) = s.type.indextype.high - s.type.indextype.low + 1
      · simp [hf]
      · simp [hf]
    · simp
  · intro e he
    unfold OrderedSetValue.push at he ⊢
    cases hc : s.contains v
    · by_cases hf : s.full = true
      · simp only [hc, Bool.false_eq_true, if_false, hf, if_true] at he ⊢
        injection he with he
        exact ⟨he.symm, trivial⟩
      · simp only [hc, Bool.false_eq_true, if_false, hf] at he
        cases he
    · simp only [hc, if_true] at he
      cases he
  · unfold OrderedSetValue.pop
    by_cases h0 : s.used = 0
    · simp [h0]
    · simp [h0]
  · intro e he
    unfold OrderedSetValue.pop at he ⊢
    by_cases h0 : s.used = 0
    · simp only [h0, if_true] at he ⊢
      injection he with he
      exact ⟨he.symm, trivial⟩
    · simp only [h0, if_false] at he
      cases he

/-- C16.  For every ordered set, full or not, and every value `v` that it
contains, `push(v)` returns without raising and leaves the set, so its `used`
count and its used items, as it was.  And `push` is idempotent: for every set
and value, a second `push(v)` right after a `push(v)` leaves the set the first
one left, whether the first returned or raised. -/
theorem push_contained_is_noop (s : OrderedSetValue E) (v : E) :
    (s.contains v = true →
      s.push v = (s, .ok ()) ∧ (s.push v).1.used = s.used ∧
      (s.push v).1.usedItems = s.usedItems) ∧
    ((s.push v).1.push v).1 = (s.push v).1 := by
  have hnoop : ∀ t : OrderedSetValue E, t.contains v = true → t.push v = (t, .ok ()) := by
    intro t ht
    unfold OrderedSetValue.push
    simp [ht]
  refine ⟨fun h => ?_, ?_⟩
  · rw [hnoop s h]
    exact ⟨rfl, rfl, rfl⟩
  · cases hc : s.contains v
    · by_cases hf : s.full = true
      · have hpush : s.push v = (s, .error .Bounds) := by
          unfold OrderedSetValue.push
          simp [hc, hf]
        rw [hpush]
        simp only
        rw [hpush]
      · have hpush : s.push v =
            ({ s with items := OrderedSetValue.assignAt s.items s.used v,
                      used := s.used + 1 }, .ok ()) := by
          unfold OrderedSetValue.push
          simp [hc, hf]
        rw [hpush]
        simp only
        rw [hnoop _ ((contains_iff _ v).2 (mem_usedItems_push s v))]
    · rw [hnoop s hc]
      simp only
      rw [hnoop s hc]

end OrderedSetPush

/-! ## Ordered sets: reachable values -/

section OrderedSetReachable

variable {E : Type}

theorem setShape_pop (type : OrderedSetType E) (s : OrderedSetValue E)
    (h : SetShape type s) : SetShape type s.pop.1 := by
  obtain ⟨ht, hl, hu⟩ := h
  unfold OrderedSetValue.pop
  by_cases h0 : s.used = 0
  · simp only [h0, if_true]
    exact ⟨ht, hl, by omega⟩
  · simp only [h0, if_false]
    refine ⟨ht, ?_, ?_⟩
    · simp only [List.length_tail, List.length_append, List.length_singleton]
      omega
    · simp only [List.length_tail, List.length_append, List.length_singleton]
      omega

variable [DecidableEq E]

theorem setShape_push (type : OrderedSetType E) (s : OrderedSetValue E) (v : E)
    (hcap : type.indextype.low ≤ type.indextype.high + 1)
    (h : SetShape type s) : SetShape type (s.push v).1 := by
  obtain ⟨ht, hl, hu⟩ := h
  unfold OrderedSetValue.push
  split
  · exact ⟨ht, hl, hu⟩
  · split
    · exact ⟨ht, hl, hu⟩
    · rename_i hfull
      have hne : (s.used : Int) ≠ s.type.indextype.high - s.type.indextype.low + 1 := by
        simpa [OrderedSetValue.full] using hfull
      rw [ht] at hne
      have hlt : s.used < s.items.length := by omega
      refine ⟨ht, ?_, ?_⟩
      · simp only [OrderedSetValue.assignAt, if_pos hlt, List.length_set]
        exact hl
      · simp only [OrderedSetValue.assignAt, if_pos hlt, List.length_set]
        omega

theorem setShape_remove (type : OrderedSetType E) (s : OrderedSetValue E) (v : E)
    (h : SetShape type s) : SetShape type (s.remove v).1 := by
  obtain ⟨ht, hl, hu⟩ := h
  unfold OrderedSetValue.remove
  split
  · rename_i index hidx
    have hlt : index < s.usedItems.length := by
      rw [List.findIdx?_eq_some_iff_findIdx_eq] at hidx
      exact hidx.1
    have hlt' : index < s.items.length := by
      unfold OrderedSetValue.usedItems at hlt
      simp only [List.length_take] at hlt
      omega
    refine ⟨ht, ?_, ?_⟩
    · simp only [List.length_append, List.length_take, List.length_drop,
        List.length_singleton]
      omega
    · simp only [List.length_append, List.length_take, List.length_drop,
        List.length_singleton]
      omega
  · exact ⟨ht, hl, hu⟩

theorem setReachable_shape (type : OrderedSetType E) (s : OrderedSetValue E)
    (hcap : type.indextype.low ≤ type.indextype.high + 1)
    (h : SetReachable type s) : SetShape type s := by
  induction h with
  | fresh =>
    refine ⟨rfl, ?_, ?_⟩
    · simp [OrderedSetType.makeDefaultValue]
    · simp [OrderedSetType.makeDefaultValue]
  | step s op _ ih =>
    cases op with
    | push v => exact setShape_push type s v hcap ih
    | pop => exact setShape_pop type s ih
    | remove v => exact setShape_remove type s v ih

/-- C17, the code at a failing input.  From a default value over `0..2`, the
calls `push(1)`, `push(2)`, `remove(1)`, `remove(2)` reach a set with
`used = 2` whose two used items are both the default 0: `remove` backfills
with the default and does not decrease `used`. -/
theorem removes_leave_equal_used_items :
    SetReachable Letters.type Letters.removedBoth ∧
    Letters.removedBoth.items = [0, 0, 0] ∧
    Letters.removedBoth.used = 2 ∧
    Letters.removedBoth.usedItems = [0, 0] ∧
    ¬ Letters.removedBoth.usedItems.Nodup :=
  ⟨.step _ (.remove 2) (.step _ (.remove 1) (.step _ (.push 2) (.step _ (.push 1) .fresh))),
    by decide, by decide, by decide, by decide⟩

/-- C18, as stated, fails.  Over the index range `3..1`, where
`high - low + 1 = -1`, a default value has no slot and is never full; two
pushes return normally and leave `used = 2` and a backing array of 2 slots,
both above `high - low + 1`. -/
theorem degenerate_range_exceeds_capacity :
    SetReachable Degenerate.type Degenerate.two ∧
    Degenerate.type.indextype.high - Degenerate.type.indextype.low + 1 = -1 ∧
    Degenerate.type.makeDefaultValue.items = [] ∧
    (Degenerate.type.makeDefaultValue.push 1).2 = .ok () ∧
    ((Degenerate.type.makeDefaultValue.push 1).1.push 2).2 = .ok () ∧
    Degenerate.two.used = 2 ∧
    Degenerate.two.items = [1, 2] ∧
    ¬ ((Degenerate.two.used : Int) ≤
      Degenerate.two.type.indextype.high - Degenerate.two.type.indextype.low + 1) :=
  ⟨.step _ (.push 2) (.step _ (.push 1) .fresh),
    by decide, by decide, rfl, rfl, by decide, by decide, by decide⟩

/-- C18, amended.  For an index range of non-negative size, `low ≤ high + 1`,
every ordered set reached from a freshly created default value of the type by
calls of `push`, `pop` and `remove`, returning or raising, has `0 ≤ used` and
`used ≤ high - low + 1`, and its backing array has exactly `high - low + 1`
slots; so the set never holds more than the capacity of its index range. -/
theorem reachable_within_capacity (type : OrderedSetType E) (s : OrderedSetValue E)
    (hcap : type.indextype.low ≤ type.indextype.high + 1)
    (hreach : SetReachable type s) :
    (0 : Int) ≤ (s.used : Int) ∧
    (s.used : Int) ≤ s.type.indextype.high - s.type.indextype.low + 1 ∧
    (s.items.length : Int) = s.type.indextype.high - s.type.indextype.low + 1 ∧
    (s.usedItems.length : Int) ≤ s.type.indextype.high - s.type.indextype.low + 1 ∧
    s.type = type := by
  obtain ⟨ht, hl, hu⟩ := setReachable_shape type s hcap hreach
  rw [ht]
  have hused : s.usedItems.length ≤ s.used := by
    unfold OrderedSetValue.usedItems
    simp only [List.length_take]
    omega
  refine ⟨by omega, by omega, by omega, by omega, rfl⟩

/-- The set reached by `push(1)`, `push(2)`, `push(3)` over `0..2` is full:
`used = 3` of 3 slots. -/
theorem reachable_within_capacity_witness :
    ((0 : Int) ≤ (Letters.abc.used : Int) ∧
    (Letters.abc.used : Int) ≤
      Letters.abc.type.indextype.high - Letters.abc.type.indextype.low + 1 ∧
    (Letters.abc.items.length : Int) =
      Letters.abc.type.indextype.high - Letters.abc.type.indextype.low + 1 ∧
    (Letters.abc.usedItems.length : Int) ≤
      Letters.abc.type.indextype.high - Letters.abc.type.indextype.low + 1 ∧
    Letters.abc.type = Letters.type) ∧
    Letters.abc.used = 3 ∧ Letters.abc.items.length = 3 ∧
    (Letters.abc.push 4).2 = .error .Bounds :=
  ⟨reachable_within_capacity Letters.type Letters.abc (by decide)
      (.step _ (.push 3) (.step _ (.push 2) (.step _ (.push 1) .fresh))),
    by decide, by decide, rfl⟩

end OrderedSetReachable

/-! ## Ordered sets: `index` -/

section OrderedSetIndex

variable {E : Type}

/-- Inside the occupied range `index` returns the used item at that position,
the element `forEach` reports at that index. -/
theorem index_occupied (s : OrderedSetValue E) (k : Nat) (x : E)
    (hx : s.usedItems[k]? = some x) :
    s.index (s.type.indextype.low + (k : Int)) = .ok x ∧
    s.forEach[k]? = some (x, numberAdd s.type.indextype.low (k : Int)) := by
  have hk : k < s.used ∧ s.items[k]? = some x := by
    unfold OrderedSetValue.usedItems at hx
    rw [List.getElem?_take] at hx
    split at hx
    · rename_i h; exact ⟨h, hx⟩
    · cases hx
  refine ⟨?_, ?_⟩
  · unfold OrderedSetValue.index
    have h1 : ¬ (s.type.indextype.low + (k : Int) < s.type.indextype.low ∨
        s.type.indextype.low + (k : Int) > s.type.indextype.low + (s.used : Int)) := by
      omega
    have h2 : (s.type.indextype.low + (k : Int) - s.type.indextype.low).toNat = k := by
      simp
    rw [if_neg h1, h2, hk.2]
  · rw [forEach_getElem?, hx]
    rfl

/-- Below `low` and above `low + used` the method `index` throws a Bounds
error. -/
theorem index_outside (s : OrderedSetValue E) (i : Int)
    (h : i < s.type.indextype.low ∨ s.type.indextype.low + (s.used : Int) < i) :
    s.index i = .error .Bounds := by
  unfold OrderedSetValue.index
  have h1 : i < s.type.indextype.low ∨ i > s.type.indextype.low + (s.used : Int) := by
    omega
  rw [if_pos h1]

/-- C19, the code at a failing input.  On the set over `0..2` that holds only
1, so `used = 1` and the occupied range is `0..0`, `index(1)` at
`i = low + used` returns the default 0 of the unused slot instead of raising a
Bounds error; on the full set holding 1, 2, 3, `index(3)` raises the Internal
error of the failed bounds check instead of a Bounds error.  One index further
out, and below `low`, the Bounds error is raised, and inside the range the
used item is returned. -/
theorem index_past_last_used_item :
    Letters.a.usedItems = [1] ∧
    Letters.a.index 1 = .ok 0 ∧
    Letters.abc.usedItems = [1, 2, 3] ∧
    Letters.abc.index 3 = .error .Internal ∧
    Letters.a.index 2 = .error .Bounds ∧
    Letters.a.index (-1) = .error .Bounds ∧
    Letters.a.index 0 = .ok 1 :=
  ⟨by decide, rfl, by decide, rfl, rfl, rfl, rfl⟩

end OrderedSetIndex

/-! ## Subtyping and equality of types -/

section Types

variable {T : Type} [DecidableEq T]

theorem subtypeOf_refl (k : TypeClasses T) (t : T) : subtypeOf k t t = true := by
  simp [subtypeOf]

/-- C20.  For all types `a` and `b`, `haveEquality(a, b)` is
`haveEquality(b, a)`; and for every type `t`, `subtypeOf(t, t)` holds, and so
does `haveEquality(t, t)`. -/
theorem haveEquality_symmetric_subtypeOf_reflexive (k : TypeClasses T) :
    (∀ a b : T, haveEquality k a b = haveEquality k b a) ∧
    (∀ t : T, subtypeOf k t t = true) ∧
    (∀ t : T, haveEquality k t t = true) := by
  refine ⟨?_, subtypeOf_refl k, ?_⟩
  · intro a b
    have hparent : decide (k.parenttype a = k.parenttype b) =
        decide (k.parenttype b = k.parenttype a) := by
      by_cases h : k.parenttype a = k.parenttype b
      · rw [h]
      · have h' : ¬ k.parenttype b = k.parenttype a := fun e => h e.symm
        rw [decide_eq_false h, decide_eq_false h']
    have hvariants : (k.isEitherVariant a && k.isEitherVariant b &&
          decide (k.parenttype a = k.parenttype b)) =
        (k.isEitherVariant b && k.isEitherVariant a &&
          decide (k.parenttype b = k.parenttype a)) := by
      rw [hparent, Bool.and_comm (k.isEitherVariant a)]
    unfold haveEquality
    rw [hvariants]
    cases hab : subtypeOf k a b <;> cases hba : subtypeOf k b a <;> rfl
  · intro t
    simp [haveEquality, subtypeOf_refl]

end Types

/-! ## Ordered sets: pushes followed by pops -/

section OrderedSetQueue

variable {E : Type}

theorem pop_of_usedItems_cons (s : OrderedSetValue E) (x : E) (rest : List E)
    (hlen : s.used ≤ s.items.length) (h : s.usedItems = x :: rest) :
    s.pop.2 = .ok x ∧ s.pop.1.usedItems = rest ∧ s.pop.1.used ≤ s.pop.1.items.length := by
  have hused : 1 ≤ s.used := by
    cases hu : s.used with
    | zero =>
      unfold OrderedSetValue.usedItems at h
      rw [hu] at h
      simp at h
    | succ n => omega
  obtain ⟨first, hpop, _, hitems, hu, hl, _⟩ := pop_head s hused hlen
  rw [h] at hitems
  injection hitems with h1 h2
  subst h1
  exact ⟨hpop, h2.symm, by omega⟩

variable [DecidableEq E]

/-- A `push` of a value that equals no used item onto a set that is not full
writes it at position `used`: the used items grow by that value at the end. -/
theorem push_appends (s : OrderedSetValue E) (v : E)
    (hmem : v ∉ s.usedItems)
    (hfull : (s.used : Int) ≠ s.type.indextype.high - s.type.indextype.low + 1)
    (hlt : s.used < s.items.length) :
    (s.push v).2 = .ok () ∧
    (s.push v).1.usedItems = s.usedItems ++ [v] ∧
    (s.push v).1.used = s.used + 1 ∧
    (s.push v).1.items.length = s.items.length ∧
    (s.push v).1.type = s.type := by
  have hc : s.contains v = false := by
    cases h : s.contains v
    · rfl
    · exact absurd ((contains_iff s v).1 h) hmem
  have hf : s.full = false := by
    simpa [OrderedSetValue.full] using hfull
  have hpush : s.push v =
      ({ s with items := s.items.set s.used v, used := s.used + 1 }, .ok ()) := by
    unfold OrderedSetValue.push
    simp [hc, hf, OrderedSetValue.assignAt, hlt]
  rw [hpush]
  refine ⟨rfl, ?_, rfl, by simp, rfl⟩
  unfold OrderedSetValue.usedItems
  simp only
  rw [List.take_succ, List.set_take,
    List.set_eq_of_length_le (by simp [List.length_take]), List.getElem?_set_self hlt]
  rfl

/-- C13, amended.  For every ordered set with `1 ≤ used` (and, as in every set
reached from a default value, `used` within the backing array), `pop()`
returns the used item at the lowest occupied index `low`, decreases `used` by
one, and leaves the remaining used items unchanged and in the same order,
each one index lower.  So after pushing distinct `a`, `b`, `c` onto a freshly
created set of capacity at least 3, whose used items are then `a`, `b`, `c`,
successive pops return `a`, then `b`, then `c`. -/
theorem pop_returns_first (s : OrderedSetValue E)
    (hused : 1 ≤ s.used) (hlen : s.used ≤ s.items.length) :
    (∃ first, s.pop.2 = .ok first ∧
      s.index s.type.indextype.low = .ok first ∧
      s.usedItems = first :: s.pop.1.usedItems ∧
      s.pop.1.used = s.used - 1 ∧
      s.pop.1.items.length = s.items.length ∧
      s.pop.1.type = s.type) ∧
    (∀ (type : OrderedSetType E) (a b c : E),
      3 ≤ type.indextype.high - type.indextype.low + 1 → a ≠ b → a ≠ c → b ≠ c →
      (((type.makeDefaultValue.push a).1.push b).1.push c).1.usedItems = [a, b, c] ∧
      (((type.makeDefaultValue.push a).1.push b).1.push c).1.pop.2 = .ok a ∧
      (((type.makeDefaultValue.push a).1.push b).1.push c).1.pop.1.pop.2 = .ok b ∧
      (((type.makeDefaultValue.push a).1.push b).1.push c).1.pop.1.pop.1.pop.2 = .ok c) := by
  refine ⟨pop_head s hused hlen, ?_⟩
  intro type a b c hcap hab hac hbc
  have h0len : type.makeDefaultValue.items.length =
      (type.indextype.high - type.indextype.low + 1).toNat := by
    simp [OrderedSetType.makeDefaultValue]
  have h0used : type.makeDefaultValue.used = 0 := rfl
  have h0items : type.makeDefaultValue.usedItems = [] := rfl
  have h0type : type.makeDefaultValue.type = type := rfl
  obtain ⟨_, h1items, h1used, h1len, h1type⟩ :=
    push_appends type.makeDefaultValue a (by rw [h0items]; simp)
      (by rw [h0used, h0type]; omega) (by rw [h0used, h0len]; omega)
  rw [h0items] at h1items
  rw [h0used] at h1used
  rw [h0len] at h1len
  rw [h0type] at h1type
  obtain ⟨_, h2items, h2used, h2len, h2type⟩ :=
    push_appends (type.makeDefaultValue.push a).1 b
      (by rw [h1items]; simpa using fun h => hab h.symm)
      (by rw [h1used, h1type]; omega) (by rw [h1used, h1len]; omega)
  rw [h1items] at h2items
  rw [h1used] at h2used
  rw [h1len] at h2len
  rw [h1type] at h2type
  obtain ⟨_, h3items, h3used, h3len, _⟩ :=
    push_appends ((type.makeDefaultValue.push a).1.push b).1 c
      (by rw [h2items]; simpa using ⟨fun h => hac h.symm, fun h => hbc h.symm⟩)
      (by rw [h2used, h2type]; omega) (by rw [h2used, h2len]; omega)
  rw [h2items] at h3items
  rw [h2used] at h3used
  rw [h2len] at h3len
  simp only [List.nil_append, List.cons_append] at h3items
  obtain ⟨hpa, hra, hla⟩ := pop_of_usedItems_cons _ a [b, c]
    (by rw [h3used, h3len]; omega) h3items
  obtain ⟨hpb, hrb, hlb⟩ := pop_of_usedItems_cons _ b [c] hla hra
  obtain ⟨hpc, _, _⟩ := pop_of_usedItems_cons _ c [] hlb hrb
  exact ⟨h3items, hpa, hpb, hpc⟩

/-- On the set holding 1, 2, 3 over `0..2`, `pop()` returns 1 and leaves 2
and 3; after `push(1)`, `push(2)`, `push(3)` on a default value over `0..2`
the pops return 1, 2, 3. -/
theorem pop_returns_first_witness :
    (∃ first, Letters.abc.pop.2 = .ok first ∧
      Letters.abc.index Letters.abc.type.indextype.low = .ok first ∧
      Letters.abc.usedItems = first :: Letters.abc.pop.1.usedItems ∧
      Letters.abc.pop.1.used = Letters.abc.used - 1 ∧
      Letters.abc.pop.1.items.length = Letters.abc.items.length ∧
      Letters.abc.pop.1.type = Letters.abc.type) ∧
    Letters.abc.pop.1.usedItems = [2, 3] ∧
    (((Letters.type.makeDefaultValue.push 1).1.push 2).1.push 3).1.usedItems = [1, 2, 3] ∧
    (((Letters.type.makeDefaultValue.push 1).1.push 2).1.push 3).1.pop.2 = .ok 1 ∧
    (((Letters.type.makeDefaultValue.push 1).1.push 2).1.push 3).1.pop.1.pop.2 = .ok 2 ∧
    (((Letters.type.makeDefaultValue.push 1).1.push 2).1.push 3).1.pop.1.pop.1.pop.2 = .ok 3 :=
  ⟨(pop_returns_first Letters.abc (by decide) (by decide)).1, by decide,
    (pop_returns_first Letters.abc (by decide) (by decide)).2 Letters.type 1 2 3
      (by decide) (by decide) (by decide) (by decide)⟩

end OrderedSetQueue

end Runway
